import Mathlib

/-!
# Verification of the OmniScribe multi-format book exporter

Shallow embedding of the exporter core of the repository:

* the book data model (`types.ts`);
* the shared helpers `sanitizeFilename`, `buildMarkdown`, `buildPlainText`,
  `escapeHtml`, `markdownToBasicHtml` and the sequential regex
  markup-stripping pipeline;
* the EPUB packager (`exportEPUB`), the DOCX composer (`exportDOCX`),
  the direct-text-flow PDF exporter (Strategy A) and the rasterizing
  PDF exporter (Strategy B).

JavaScript strings are modelled as lists of characters (`Str`); the
handful of JS regex replacements used by the code are implemented as
executable functions that mirror the engine's leftmost scan, lazy groups
and the `.`/`\s` character classes.  Browser-side effects (blob creation,
`saveAs`, DOM rasterization, zip byte layout) are outside the model: the
exporters are modelled up to the data they hand to those libraries
(strings, archive entries, paragraph lists, page/draw sequences).
-/

/-- JavaScript strings, modelled as lists of characters. -/
abbrev Str := List Char

/-- Characters matched by the JS regex class `\s` (which is also exactly
the set removed by `String.prototype.trim`). -/
def jsWhitespace (c : Char) : Bool :=
  c.toNat = 0x9 || c.toNat = 0xA || c.toNat = 0xB || c.toNat = 0xC ||
  c.toNat = 0xD || c.toNat = 0x20 || c.toNat = 0xA0 || c.toNat = 0x1680 ||
  (0x2000 ≤ c.toNat && c.toNat ≤ 0x200A) ||
  c.toNat = 0x2028 || c.toNat = 0x2029 || c.toNat = 0x202F ||
  c.toNat = 0x205F || c.toNat = 0x3000 || c.toNat = 0xFEFF

/-- JS line terminators: the characters NOT matched by `.` in a regex
without the `s` flag. -/
def jsLineTerm (c : Char) : Bool :=
  c.toNat = 0xA || c.toNat = 0xD || c.toNat = 0x2028 || c.toNat = 0x2029

/-- Characters matched by the JS regex class `\w`. -/
def jsWordChar (c : Char) : Bool :=
  ('A' ≤ c && c ≤ 'Z') || ('a' ≤ c && c ≤ 'z') || ('0' ≤ c && c ≤ '9') || c = '_'

/-- The CJK code-point ranges admitted by `sanitizeFilename`'s character
class: Han `一-鿿`, Hiragana `぀-ゟ`, Katakana
`゠-ヿ`. -/
def cjkChar (c : Char) : Bool :=
  (0x4E00 ≤ c.toNat && c.toNat ≤ 0x9FFF) ||
  (0x3040 ≤ c.toNat && c.toNat ≤ 0x309F) ||
  (0x30A0 ≤ c.toNat && c.toNat ≤ 0x30FF)

/-- `String.prototype.trim`. -/
def jsTrim (s : Str) : Str :=
  ((s.dropWhile jsWhitespace).reverse.dropWhile jsWhitespace).reverse

/-- `s.split('\n')`. -/
def jsSplitNL : Str → List Str
  | [] => [[]]
  | '\n' :: r => [] :: jsSplitNL r
  | c :: r =>
    match jsSplitNL r with
    | h :: t => (c :: h) :: t
    | [] => [[c]]

/-- Worker for `jsSplitSep` (fuelled; fuel bounds the number of characters
still to be scanned). -/
def jsSplitSepGo (sep : Str) : Nat → Str → Str → List Str
  | _, acc, [] => [acc.reverse]
  | 0, acc, l => [acc.reverse ++ l]
  | fuel + 1, acc, c :: r =>
    if sep.isPrefixOf (c :: r) then
      acc.reverse :: jsSplitSepGo sep fuel [] ((c :: r).drop sep.length)
    else
      jsSplitSepGo sep fuel (c :: acc) r

/-- `s.split(sep)` for a non-empty literal separator `sep`. -/
def jsSplitSep (sep : Str) (s : Str) : List Str :=
  jsSplitSepGo sep s.length [] s

/- ─── JS regex replacement engine (specialised) ───

Every regex replacement the exporters perform is a global leftmost scan:
at each position the engine either matches (producing replacement text
and resuming after the match, without rescanning the replacement) or
moves one character forward.  `replGo` implements that scan for an
arbitrary "match at this position" function; fuel is the number of
characters left to examine (each step consumes at least one input
character, so `length` fuel is exact). -/

/-- A positional matcher: given the remaining input, `some (rep, rest)`
means the regex matches here, the match's replacement text is `rep`, and
scanning resumes at `rest`. -/
abbrev MatchFn := Str → Option (Str × Str)

/-- Global regex replacement: leftmost scan with `f` at each position. -/
def replGo (f : MatchFn) : Nat → Str → Str
  | 0, l => l
  | _ + 1, [] => []
  | fuel + 1, c :: r =>
    match f (c :: r) with
    | some (rep, rest) => rep ++ replGo f fuel rest
    | none => c :: replGo f fuel r

/-- Does `f` match at some position of the string? -/
def hasM (f : MatchFn) : Str → Bool
  | [] => false
  | c :: r => (f (c :: r)).isSome || hasM f r

/-- Length of the leading run of `#` characters. -/
def countHash : Str → Nat
  | [] => 0
  | c :: r => if c = '#' then countHash r + 1 else 0

/-- Match of `#{1,6}\s` at the head of the input: greedily take the
whole `#` run (if it is at most 6 long) and require a whitespace
character right after it; a run longer than 6 leaves `#`s before a
potential later match, handled by the scan.  Returns the number of
characters consumed. -/
def headMatchLen (l : Str) : Option Nat :=
  match l with
  | [] => none
  | c :: _ =>
    if c = '#' then
      let m := countHash l
      if m ≤ 6 then
        match l.get? m with
        | some w => if jsWhitespace w then some (m + 1) else none
        | none => none
      else none
    else none

/-- Positional matcher for `/#{1,6}\s/g` with replacement `''`. -/
def headF : MatchFn := fun l =>
  match headMatchLen l with
  | some k => some ([], l.drop k)
  | none => none

/-- Lazy search for the closing `**` of a bold span: the inner group is
the shortest run of non-line-terminator characters followed by `**`.
Returns the group and the input after the closing `**`. -/
def findClose2 : Str → Option (Str × Str)
  | [] => none
  | [c] =>
    if jsLineTerm c then none
    else (findClose2 []).map (fun p => (c :: p.1, p.2))
  | c :: c2 :: rest2 =>
    if c = '*' ∧ c2 = '*' then some ([], rest2)
    else if jsLineTerm c then none
    else (findClose2 (c2 :: rest2)).map (fun p => (c :: p.1, p.2))

/-- Lazy search for a closing single character `stop` (used by the
italic, inline-code and parenthesis parts of the regex passes). -/
def findClose1 (stop : Char) : Str → Option (Str × Str)
  | [] => none
  | c :: rest =>
    if c = stop then some ([], rest)
    else if jsLineTerm c then none
    else (findClose1 stop rest).map (fun p => (c :: p.1, p.2))

/-- Positional matcher for `/\*\*(.*?)\*\*/g` with replacement `'$1'`. -/
def boldF : MatchFn := fun l =>
  match l with
  | c :: c2 :: r =>
    if c = '*' ∧ c2 = '*' then (findClose2 r).map (fun p => (p.1, p.2)) else none
  | _ => none

/-- Positional matcher for `/\*(.*?)\*/g` with replacement `'$1'`. -/
def italicF : MatchFn := fun l =>
  match l with
  | c :: r => if c = '*' then (findClose1 '*' r).map (fun p => (p.1, p.2)) else none
  | _ => none

/-- The backquote character. -/
def backtick : Char := Char.ofNat 96

/-- Positional matcher for the inline-code pass (backquote-delimited,
replacement `'$1'`). -/
def codeF : MatchFn := fun l =>
  match l with
  | c :: r =>
    if c = backtick then (findClose1 backtick r).map (fun p => (p.1, p.2))
    else none
  | _ => none

/-- Search for the `](`…`)` tail of a link after the opening `[`: the
first group is the shortest non-line-terminator run followed by `](`,
itself followed by a lazily closed `)`; when the parenthesised part
cannot be closed the engine backtracks and lets the first group absorb
the `]`. -/
def linkTail : Str → Option (Str × Str)
  | ']' :: '(' :: r =>
    (match findClose1 ')' r with
     | some (_, rest) => some ([], rest)
     | none => (linkTail ('(' :: r)).map (fun p => (']' :: p.1, p.2)))
  | c :: r =>
    if jsLineTerm c then none
    else (linkTail r).map (fun p => (c :: p.1, p.2))
  | [] => none

/-- Positional matcher for `/\[(.*?)\]\(.*?\)/g` with replacement `'$1'`. -/
def linkF : MatchFn := fun l =>
  match l with
  | c :: r => if c = '[' then (linkTail r).map (fun p => (p.1, p.2)) else none
  | _ => none

/-- The heading-marker strip pass `replace(/#{1,6}\s/g, '')`. -/
def stripHeading (s : Str) : Str := replGo headF s.length s

/-- The bold strip pass `replace(/\*\*(.*?)\*\*/g, '$1')`. -/
def stripBold (s : Str) : Str := replGo boldF s.length s

/-- The italic strip pass `replace(/\*(.*?)\*/g, '$1')`. -/
def stripItalic (s : Str) : Str := replGo italicF s.length s

/-- The inline-code strip pass (backquote pairs reduced to the inner
text). -/
def stripCode (s : Str) : Str := replGo codeF s.length s

/-- The link strip pass `replace(/\[(.*?)\]\(.*?\)/g, '$1')`. -/
def stripLink (s : Str) : Str := replGo linkF s.length s

/-- The full markup-stripping pipeline used by `buildPlainText` (and,
per line, by the Strategy-A PDF exporter): heading markers → bold →
italic → inline code → links, in that fixed order. -/
def stripMarkup (s : Str) : Str :=
  stripLink (stripCode (stripItalic (stripBold (stripHeading s))))

/-- `x` contains no construct of the markup subset recognised by the
strip pipeline: none of the five regexes matches anywhere in `x`. -/
def noMarkup (s : Str) : Bool :=
  !(hasM headF s || hasM boldF s || hasM italicF s || hasM codeF s || hasM linkF s)

/- ─── `escapeHtml` and `markdownToBasicHtml` ─── -/

/-- Global replacement of the single character `c` by the string `rep`
(one `replace(/c/g, rep)` pass). -/
def replChar (c : Char) (rep : Str) (s : Str) : Str :=
  (s.map (fun x => if x = c then rep else [x])).flatten

/-- `escapeHtml`: sequentially replace `&`, `<`, `>`, `"` by their
entities (ampersand first). -/
def escapeHtml (s : Str) : Str :=
  replChar '"' "&quot;".data <|
    replChar '>' "&gt;".data <|
      replChar '<' "&lt;".data <|
        replChar '&' "&amp;".data s

/-- `t.replace(/^pre/, '')` for a literal prefix pattern `pre`. -/
def dropPrefixMatch (pre : Str) (t : Str) : Str :=
  if pre.isPrefixOf t then t.drop pre.length else t

/-- `t.replace(/^> /gm, '')`: remove `> ` at the start of every line.
The flag records whether the current position is a line start. -/
def stripQuoteGo : Bool → Str → Str
  | _, [] => []
  | true, '>' :: ' ' :: r => stripQuoteGo false r
  | _, c :: r => c :: stripQuoteGo (jsLineTerm c) r

/-- `t.replace(/^> /gm, '')`. -/
def stripQuoteMarks (t : Str) : Str := stripQuoteGo true t

/-- Positional matcher for `/\*\*(.*?)\*\*/g` with replacement
`'<strong>$1</strong>'`. -/
def boldHtmlF : MatchFn := fun l =>
  match l with
  | c :: c2 :: r =>
    if c = '*' ∧ c2 = '*' then
      (findClose2 r).map (fun p => ("<strong>".data ++ p.1 ++ "</strong>".data, p.2))
    else none
  | _ => none

/-- Positional matcher for `/\*(.*?)\*/g` with replacement
`'<em>$1</em>'`. -/
def italicHtmlF : MatchFn := fun l =>
  match l with
  | c :: r =>
    if c = '*' then (findClose1 '*' r).map (fun p => ("<em>".data ++ p.1 ++ "</em>".data, p.2))
    else none
  | _ => none

/-- `replace(/\*\*(.*?)\*\*/g, '<strong>$1</strong>')`. -/
def subBoldHtml (s : Str) : Str := replGo boldHtmlF s.length s

/-- `replace(/\*(.*?)\*/g, '<em>$1</em>')`. -/
def subItalicHtml (s : Str) : Str := replGo italicHtmlF s.length s

/-- One blank-line-delimited block of `markdownToBasicHtml`: trimmed,
classified by prefix into headings, block quote, rule, or paragraph with
escaped text and bold/italic converted to `<strong>`/`<em>` (escape
first, then tag substitution). -/
def mdBlockHtml (block : Str) : Str :=
  let t := jsTrim block
  if t = [] then []
  else if "### ".data.isPrefixOf t then
    "<h3>".data ++ escapeHtml (dropPrefixMatch "### ".data t) ++ "</h3>".data
  else if "## ".data.isPrefixOf t then
    "<h2>".data ++ escapeHtml (dropPrefixMatch "## ".data t) ++ "</h2>".data
  else if "# ".data.isPrefixOf t then
    "<h1>".data ++ escapeHtml (dropPrefixMatch "# ".data t) ++ "</h1>".data
  else if "> ".data.isPrefixOf t then
    "<blockquote><p>".data ++ escapeHtml (stripQuoteMarks t) ++ "</p></blockquote>".data
  else if t = "---".data ∨ t = "***".data then "<hr/>".data
  else
    "<p>".data ++ subItalicHtml (subBoldHtml (escapeHtml t)) ++ "</p>".data

/-- `markdownToBasicHtml`: split on blank lines, convert each block,
join with `\n`. -/
def markdownToBasicHtml (md : Str) : Str :=
  List.intercalate "\n".data ((jsSplitSep "\n\n".data md).map mdBlockHtml)

/- ─── Data model (`types.ts`) ─── -/

/-- `Section.status` (`types.ts`). -/
inductive SecStatus
  | pending
  | generating
  | completed
  | error
deriving DecidableEq, Repr

/-- `Section` (`types.ts`). The optional `content` field is `none` when
absent. -/
structure BookSection where
  id : Str
  title : Str
  description : Str
  content : Option Str
  status : SecStatus
  wordCount : Nat
deriving DecidableEq, Repr

/-- `Chapter` (`types.ts`). -/
structure Chapter where
  id : Str
  title : Str
  sections : List BookSection
deriving DecidableEq, Repr

/-- `BookStructure` (`types.ts`). -/
structure BookStructure where
  chapters : List Chapter
deriving DecidableEq, Repr

/-- The fields of `BookSettings` that the exporters read. -/
structure BookSettings where
  title : Str
  authorName : Str
  topic : Str
  language : Str
deriving DecidableEq, Repr

/-- `BookProject` (`types.ts`), restricted to the fields the exporters
read (`settings`, `structure`, `coverImage`). -/
structure BookProject where
  settings : BookSettings
  structure' : BookStructure
  coverImage : Option Str
deriving DecidableEq, Repr

/-- JS truthiness of `s.content`: the section participates in an export
iff `content` is present and non-empty. -/
def hasContent (s : BookSection) : Bool :=
  match s.content with
  | some c => c ≠ []
  | none => false

/-- The content string of a section (`''` when absent). -/
def contentStr (s : BookSection) : Str :=
  s.content.getD []

/- ─── `sanitizeFilename` ─── -/

/-- A character kept (not replaced by `_`) by `sanitizeFilename`'s regex
`[^\w一-鿿぀-ゟ゠-ヿ-]`. -/
def sanitizeKeep (c : Char) : Bool :=
  jsWordChar c || cjkChar c || c = '-'

/-- `sanitizeFilename` (exporter helpers): replace every character
outside the word-char/CJK/hyphen class by `_`, then `slice(0, 80)`. -/
def sanitizeFilename (title : Str) : Str :=
  (title.map (fun c => if sanitizeKeep c then c else '_')).take 80

/- ─── `buildMarkdown` ─── -/

/-- `buildMarkdown` (exporter helpers): `# title`, optional bold author
line plus rule, then `## chapter` / `### section` + content for every
section whose `content` is non-empty. -/
def buildMarkdown (p : BookProject) : Str :=
  let md := "# ".data ++ p.settings.title ++ "\n\n".data
  let md := md ++
    (if p.settings.authorName ≠ [] then
      "**".data ++ p.settings.authorName ++ "**\n\n---\n\n".data
    else [])
  p.structure'.chapters.foldl (fun md c =>
    let md := md ++ "## ".data ++ c.title ++ "\n\n".data
    c.sections.foldl (fun md s =>
      if hasContent s then
        md ++ "### ".data ++ s.title ++ "\n\n".data ++ contentStr s ++ "\n\n".data
      else md) md) md

/- ─── `buildPlainText` ─── -/

/-- `buildPlainText` (exporter helpers): `=`-underlined title, optional
bilingual author line, chapters framed by 40-character rules, and each
non-empty section's content with markup stripped. -/
def buildPlainText (p : BookProject) : Str :=
  let txt := p.settings.title ++ "\n".data ++
    List.replicate p.settings.title.length '=' ++ "\n\n".data
  let txt := txt ++
    (if p.settings.authorName ≠ [] then
      "作者 / Author: ".data ++ p.settings.authorName ++ "\n\n".data
    else [])
  p.structure'.chapters.foldl (fun txt c =>
    let txt := txt ++ "\n".data ++ List.replicate 40 '─' ++ "\n".data ++
      c.title ++ "\n".data ++ List.replicate 40 '─' ++ "\n\n".data
    c.sections.foldl (fun txt s =>
      if hasContent s then
        txt ++ s.title ++ "\n\n".data ++ stripMarkup (contentStr s) ++ "\n\n".data
      else txt) txt) txt

/- ─── EPUB packager (`exportEPUB`) ───

The zip archive is modelled as the ordered list of entries handed to the
zip library, each with its name, its text content and its per-entry
compression option (only the `mimetype` entry sets one). -/

/-- Per-entry compression options of the zip library. -/
inductive ZipCompression
  | STORE
  | DEFLATE
deriving DecidableEq, Repr

/-- One archive entry: a `zip.file(name, content, options?)` call. -/
structure ZipEntry where
  name : Str
  content : Str
  compression : Option ZipCompression
deriving DecidableEq, Repr

/-- The record pushed onto `chapterFiles` for the chapter at (0-based)
index `ci`. -/
structure ChapterFile where
  id : Str
  filename : Str
  title : Str
deriving DecidableEq, Repr

/-- `chapter_{ci+1}.xhtml`. -/
def chapterFilename (ci : Nat) : Str :=
  "chapter_".data ++ (toString (ci + 1)).data ++ ".xhtml".data

/-- `chapter_{ci+1}`. -/
def chapterId (ci : Nat) : Str :=
  "chapter_".data ++ (toString (ci + 1)).data

/-- The `chapterFiles` array built by the chapter loop of `exportEPUB`. -/
def chapterFiles (p : BookProject) : List ChapterFile :=
  p.structure'.chapters.enum.foldl (fun acc ic =>
    acc ++ [⟨chapterId ic.1, chapterFilename ic.1, ic.2.title⟩]) []

/-- The `<body>` content of one chapter document: `<h1>` of the escaped
chapter title, then `<h2>` + converted content for every section whose
`content` is non-empty. -/
def epubChapterBody (c : Chapter) : Str :=
  c.sections.foldl (fun body s =>
    if hasContent s then
      body ++ "<h2>".data ++ escapeHtml s.title ++ "</h2>\n".data ++
        markdownToBasicHtml (contentStr s)
    else body)
    ("<h1>".data ++ escapeHtml c.title ++ "</h1>\n".data)

/-- The full `OEBPS/chapter_{n}.xhtml` document. -/
def epubChapterXhtml (c : Chapter) : Str :=
  "<?xml version=\"1.0\" encoding=\"UTF-8\"?>\n<!DOCTYPE html>\n<html xmlns=\"http://www.w3.org/1999/xhtml\" xml:lang=\"zh\">\n<head>\n  <title>".data ++
  escapeHtml c.title ++
  "</title>\n  <link rel=\"stylesheet\" type=\"text/css\" href=\"style.css\"/>\n</head>\n<body>\n".data ++
  epubChapterBody c ++
  "\n</body>\n</html>".data

/-- `META-INF/container.xml` (fixed text). -/
def epubContainerXml : Str :=
  "<?xml version=\"1.0\" encoding=\"UTF-8\"?>\n<container version=\"1.0\" xmlns=\"urn:oasis:names:tc:opendocument:xmlns:container\">\n  <rootfiles>\n    <rootfile full-path=\"OEBPS/content.opf\" media-type=\"application/oebps-package+xml\"/>\n  </rootfiles>\n</container>".data

/-- `OEBPS/style.css` (fixed text). -/
def epubStyleCss : Str :=
  "\nbody \x7b font-family: serif; line-height: 1.8; margin: 1em; color: #222; \x7d\nh1 \x7b font-size: 1.8em; margin-top: 2em; margin-bottom: 0.5em; text-align: center; \x7d\nh2 \x7b font-size: 1.3em; margin-top: 1.5em; margin-bottom: 0.3em; \x7d\nh3 \x7b font-size: 1.1em; margin-top: 1em; \x7d\np \x7b text-indent: 2em; margin: 0.5em 0; text-align: justify; \x7d\nblockquote \x7b margin: 1em 2em; font-style: italic; border-left: 3px solid #ccc; padding-left: 1em; \x7d\n".data

/-- `OEBPS/title.xhtml`: centered escaped title, author line only when
the author is not the `'Unknown'` fallback. -/
def epubTitleXhtml (title author : Str) : Str :=
  "<?xml version=\"1.0\" encoding=\"UTF-8\"?>\n<!DOCTYPE html>\n<html xmlns=\"http://www.w3.org/1999/xhtml\" xml:lang=\"zh\">\n<head><title>".data ++
  escapeHtml title ++
  "</title><link rel=\"stylesheet\" type=\"text/css\" href=\"style.css\"/></head>\n<body>\n  <div style=\"text-align:center; margin-top:40%;\">\n    <h1 style=\"font-size:2.5em;\">".data ++
  escapeHtml title ++ "</h1>\n    ".data ++
  (if author ≠ "Unknown".data then
    "<p style=\"font-size:1.2em; margin-top:1em;\">".data ++ escapeHtml author ++ "</p>".data
  else []) ++
  "\n  </div>\n</body>\n</html>".data

/-- One `navPoint` of `toc.ncx` (chapter at 0-based position `i`,
`playOrder` `i + 2`). -/
def epubNavPoint (i : Nat) (ch : ChapterFile) : Str :=
  "\n    <navPoint id=\"nav_".data ++ (toString i).data ++ "\" playOrder=\"".data ++
  (toString (i + 2)).data ++
  "\">\n      <navLabel><text>".data ++ escapeHtml ch.title ++
  "</text></navLabel>\n      <content src=\"".data ++ ch.filename ++
  "\"/>\n    </navPoint>".data

/-- `OEBPS/toc.ncx`: title navPoint (playOrder 1) then one navPoint per
chapter in document order. -/
def epubTocNcx (bookId title : Str) (files : List ChapterFile) : Str :=
  "<?xml version=\"1.0\" encoding=\"UTF-8\"?>\n<ncx xmlns=\"http://www.daisy.org/z3986/2005/ncx/\" version=\"2005-1\">\n  <head>\n    <meta name=\"dtb:uid\" content=\"".data ++
  bookId ++
  "\"/>\n  </head>\n  <docTitle><text>".data ++ escapeHtml title ++
  "</text></docTitle>\n  <navMap>\n    <navPoint id=\"nav_title\" playOrder=\"1\">\n      <navLabel><text>Title</text></navLabel>\n      <content src=\"title.xhtml\"/>\n    </navPoint>\n".data ++
  List.intercalate "\n".data (files.enum.map (fun ich => epubNavPoint ich.1 ich.2)) ++
  "\n  </navMap>\n</ncx>".data

/-- The `manifestItems` array of `content.opf`. -/
def manifestItems (files : List ChapterFile) : List Str :=
  ["<item id=\"title\" href=\"title.xhtml\" media-type=\"application/xhtml+xml\"/>".data,
   "<item id=\"style\" href=\"style.css\" media-type=\"text/css\"/>".data,
   "<item id=\"ncx\" href=\"toc.ncx\" media-type=\"application/x-dtbncx+xml\"/>".data] ++
  files.map (fun ch =>
    "<item id=\"".data ++ ch.id ++ "\" href=\"".data ++ ch.filename ++
    "\" media-type=\"application/xhtml+xml\"/>".data)

/-- The `spineItems` array of `content.opf`: the title page's `itemref`
first, then one `itemref` per chapter in document order. -/
def spineItems (files : List ChapterFile) : List Str :=
  "<itemref idref=\"title\"/>".data ::
  files.map (fun ch => "<itemref idref=\"".data ++ ch.id ++ "\"/>".data)

/-- `OEBPS/content.opf` (`nowIso` is the truncated
`new Date().toISOString()` value). -/
def epubContentOpf (bookId title author nowIso : Str) (files : List ChapterFile) : Str :=
  "<?xml version=\"1.0\" encoding=\"UTF-8\"?>\n<package xmlns=\"http://www.idpf.org/2007/opf\" unique-identifier=\"book-id\" version=\"3.0\">\n  <metadata xmlns:dc=\"http://purl.org/dc/elements/1.1/\">\n    <dc:identifier id=\"book-id\">".data ++
  bookId ++
  "</dc:identifier>\n    <dc:title>".data ++ escapeHtml title ++
  "</dc:title>\n    <dc:creator>".data ++ escapeHtml author ++
  "</dc:creator>\n    <dc:language>zh</dc:language>\n    <meta property=\"dcterms:modified\">".data ++
  nowIso ++ "Z</meta>\n  </metadata>\n  <manifest>\n    ".data ++
  List.intercalate "\n    ".data (manifestItems files) ++
  "\n  </manifest>\n  <spine toc=\"ncx\">\n    ".data ++
  List.intercalate "\n    ".data (spineItems files) ++
  "\n  </spine>\n</package>".data

/-- `exportEPUB`, modelled as the ordered list of archive entries it
files.  `now` stands for `Date.now()` and `nowIso` for the truncated ISO
timestamp; both are inputs of the model since the exporter reads the
clock. -/
def exportEPUB (now : Nat) (nowIso : Str) (p : BookProject) : List ZipEntry :=
  let title := p.settings.title
  let author := if p.settings.authorName ≠ [] then p.settings.authorName else "Unknown".data
  let bookId := "omniscribe-".data ++ (toString now).data
  [⟨"mimetype".data, "application/epub+zip".data, some ZipCompression.STORE⟩,
   ⟨"META-INF/container.xml".data, epubContainerXml, none⟩] ++
  p.structure'.chapters.enum.map (fun ic =>
    ⟨"OEBPS/".data ++ chapterFilename ic.1, epubChapterXhtml ic.2, none⟩) ++
  [⟨"OEBPS/style.css".data, epubStyleCss, none⟩,
   ⟨"OEBPS/title.xhtml".data, epubTitleXhtml title author, none⟩,
   ⟨"OEBPS/toc.ncx".data, epubTocNcx bookId title (chapterFiles p), none⟩,
   ⟨"OEBPS/content.opf".data, epubContentOpf bookId title author nowIso (chapterFiles p), none⟩]

/- ─── DOCX composer (`exportDOCX`) ───

The document is modelled as the ordered list of paragraph objects pushed
onto `children`; each constructor records the classification and the
text the source gives the paragraph (style numbers that no claim touches
are kept only where they distinguish pushes). -/

/-- One paragraph pushed onto the DOCX `children` array. -/
inductive DocxChild
  /-- an empty spacing paragraph of the title page, with its `before`
  spacing -/
  | spacer (before : Nat)
  /-- a centered `TextRun` paragraph of the title page -/
  | centerRun (text : Str) (size : Nat) (bold : Bool)
  /-- a `PageBreak` paragraph -/
  | pageBreak
  /-- a `HeadingLevel.HEADING_{level}` paragraph -/
  | heading (level : Nat) (text : Str)
  /-- a block-quote line: italic indented run -/
  | quote (text : Str)
  /-- a horizontal rule rendered as a centered dim glyph run -/
  | rule
  /-- a body line with inline markup reduced to its inner text -/
  | body (text : Str)
deriving DecidableEq, Repr

/-- The classification of one line of section content in `exportDOCX`:
`none` for a blank (all-whitespace) line, otherwise exactly one
paragraph chosen by the trimmed line's prefix. -/
def docxLine (line : Str) : Option DocxChild :=
  let trimmed := jsTrim line
  if trimmed = [] then none
  else if "### ".data.isPrefixOf trimmed then
    some (.heading 3 (dropPrefixMatch "### ".data trimmed))
  else if "## ".data.isPrefixOf trimmed then
    some (.heading 2 (dropPrefixMatch "## ".data trimmed))
  else if "# ".data.isPrefixOf trimmed then
    some (.heading 1 (dropPrefixMatch "# ".data trimmed))
  else if "> ".data.isPrefixOf trimmed then
    some (.quote (dropPrefixMatch "> ".data trimmed))
  else if trimmed = "---".data ∨ trimmed = "***".data then some .rule
  else
    some (.body (stripLink (stripCode (stripItalic (stripBold trimmed)))))

/-- `exportDOCX`, modelled as the `children` list handed to the
document builder: title page, page break, then per chapter a heading-1
paragraph, per non-empty section a heading-2 paragraph and one paragraph
per non-blank content line, and a page break after each chapter. -/
def exportDOCX (p : BookProject) : List DocxChild :=
  let title := p.settings.title
  let author := p.settings.authorName
  let children : List DocxChild := [.spacer 4000, .centerRun title 56 true]
  let children := children ++
    (if author ≠ [] then [DocxChild.spacer 800, DocxChild.centerRun author 28 false] else [])
  let children := children ++ [DocxChild.pageBreak]
  p.structure'.chapters.foldl (fun children c =>
    (c.sections.foldl (fun children s =>
      if hasContent s then
        (jsSplitNL (contentStr s)).foldl (fun children line =>
          children ++ (docxLine line).toList)
          (children ++ [DocxChild.heading 2 s.title])
      else children)
      (children ++ [DocxChild.heading 1 c.title])) ++
    [DocxChild.pageBreak]) children

/- ─── PDF Strategy A: direct text flow (`exportPDF`, variant with
jsPDF only) ───

A4 page: `pageH = 297`, margins 25×30, `contentW = 160`, line height 7.
The jsPDF state is modelled as the page count, the vertical cursor `y`
and the sequence of text draws; `splitTextToSize` is the library's
word-wrapper and enters the model as the parameter `wrap`. -/

/-- The jsPDF document state of the Strategy-A exporter. -/
structure PdfA where
  pages : Nat
  y : Nat
  texts : List Str
deriving DecidableEq, Repr

/-- `addPage()`: new page, cursor back to the top margin. -/
def paAddPage (st : PdfA) : PdfA :=
  { st with pages := st.pages + 1, y := 30 }

/-- `checkNewPage(needed)`: page-break when `y + needed` would pass the
bottom margin (`pageH - marginY = 267`). -/
def paCheckNewPage (needed : Nat) (st : PdfA) : PdfA :=
  if st.y + needed > 267 then paAddPage st else st

/-- A `doc.text(...)` call (its lines, in order). -/
def paDraw (ls : List Str) (st : PdfA) : PdfA :=
  { st with texts := st.texts ++ ls }

/-- `text.replace(/^[>-]\s?/, '')`: drop one leading `>` or `-` and at
most one whitespace character after it. -/
def stripLeadQuoteDash (x : Str) : Str :=
  match x with
  | c :: r =>
    if c = '>' || c = '-' then
      match r with
      | w :: r' => if jsWhitespace w then r' else r
      | [] => []
    else x
  | [] => []

/-- One content line of the Strategy-A section loop: a blank line only
advances the cursor; otherwise the line is stripped, word-wrapped, and
each wrapped line is drawn behind a page-break check. -/
def paLine (wrap : Str → List Str) (line : Str) (st : PdfA) : PdfA :=
  let trimmed := jsTrim line
  if trimmed = [] then { st with y := st.y + 3 }
  else
    let text := stripLeadQuoteDash (stripMarkup trimmed)
    (wrap text).foldl (fun st w =>
      let st := paCheckNewPage 7 st
      let st := paDraw [w] st
      { st with y := st.y + 7 }) st

/-- One section of the Strategy-A chapter loop (skipped entirely when
`content` is empty or absent). -/
def paSection (wrap : Str → List Str) (s : BookSection) (st : PdfA) : PdfA :=
  if hasContent s then
    let st := paCheckNewPage 20 st
    let secTitleLines := wrap s.title
    let st := paDraw secTitleLines st
    let st := { st with y := st.y + secTitleLines.length * 6 + 5 }
    let st := (jsSplitNL (contentStr s)).foldl (fun st line => paLine wrap line st) st
    { st with y := st.y + 8 }
  else st

/-- One chapter of Strategy A: a fresh page with the centered chapter
title at `pageH / 3`, another fresh page, then the sections. -/
def paChapter (wrap : Str → List Str) (c : Chapter) (st : PdfA) : PdfA :=
  let st := paAddPage st
  let st := { st with y := 99 }
  let st := paDraw (wrap c.title) st
  let st := paAddPage st
  c.sections.foldl (fun st s => paSection wrap s st) st

/-- `exportPDF` (Strategy A): the title page is drawn on the document's
initial page, then every chapter is rendered by `paChapter`. -/
def exportPDF_A (wrap : Str → List Str) (p : BookProject) : PdfA :=
  let st : PdfA := ⟨1, 30, []⟩
  let st := paDraw (wrap p.settings.title) st
  let st := if p.settings.authorName ≠ [] then paDraw [p.settings.authorName] st else st
  p.structure'.chapters.foldl (fun st c => paChapter wrap c st) st

/- ─── PDF Strategy B: rasterized layout flow (`exportPDF`, variant
with html2canvas) ───

Novel page size 140×210 mm rendered at 2× (`PAGE_W_PX = 1058`,
`PAGE_H_PX = 1588`, padding `round(1058 * 0.12) = 127`, so the content
height per clipped page is `1588 - 2 * 127 = 1334`).  The produced PDF
is modelled as the ordered list of rendered pages; the DOM height
measurement of each chapter's content (`measureDiv.scrollHeight`) is an
input of the model (`measureH`, indexed by chapter position). -/

/-- Content height available per clipped content page. -/
def bContentH : Nat := 1334

/-- One page of the Strategy-B PDF: either a single rendered page
(`renderPage`) or one clipped slice of a chapter's content
(`renderContentPages`), with its slice index and printed page number. -/
inductive BPage
  | page (html : Str)
  | clip (html : Str) (slice : Nat) (pageNum : Nat)
deriving DecidableEq, Repr

/-- `s.toLowerCase()`. -/
def jsToLower (s : Str) : Str := s.map Char.toLower

/-- The cover page's HTML (only when `coverImage` is truthy; the image
payload is interpolated directly). -/
def bCoverHtml (cover : Str) : Str :=
  "\n            <div style=\"width:100%; height:100%; display:flex; align-items:center; justify-content:center; background:#1a1a1a;\">\n                <img src=\"".data ++
  cover ++
  "\" style=\"max-width:100%; max-height:100%; object-fit:contain;\" />\n            </div>\n        ".data

/-- The title page's HTML. -/
def bTitleHtml (title author : Str) : Str :=
  "\n        <div style=\"width:100%; height:100%; background:#fdfbf7; display:flex; flex-direction:column; align-items:center; justify-content:center; text-align:center; padding:127px;\">\n            <div style=\"flex:1; display:flex; flex-direction:column; align-items:center; justify-content:center;\">\n                <h1 style=\"font-size:72px; font-weight:bold; color:#2d2a2e; line-height:1.3; margin:0; font-family:'Noto Serif TC','Songti SC',Georgia,serif;\">\n                    ".data ++
  escapeHtml title ++
  "\n                </h1>\n                ".data ++
  (if author ≠ [] then
    "<p style=\"font-size:36px; color:#666; margin-top:60px; font-family:'Noto Serif TC','Songti SC',Georgia,serif;\">".data ++
    escapeHtml author ++ "</p>".data
  else []) ++
  "\n            </div>\n            <div style=\"width:60px; height:2px; background:#ccc; margin-bottom:120px;\"></div>\n        </div>\n    ".data

/-- `hay.includes(needle)`. -/
def jsIncludes (needle : Str) : Str → Bool
  | [] => needle.isEmpty
  | c :: r => needle.isPrefixOf (c :: r) || jsIncludes needle r

/-- The table-of-contents heading label, selected by substring match on
the lower-cased `settings.language`. -/
def bTocLabel (lang : Str) : Str :=
  if jsIncludes "chinese".data lang || jsIncludes "中文".data lang then "目錄".data
  else if jsIncludes "japanese".data lang || jsIncludes "日".data lang then "目次".data
  else if jsIncludes "spanish".data lang then "Índice".data
  else "Table of Contents".data

/-- One table-of-contents row (chapter at 0-based position `i`). -/
def bTocItem (i : Nat) (c : Chapter) : Str :=
  "<div style=\"display:flex; align-items:baseline; margin-bottom:24px;\">\n            <span style=\"font-size:32px; color:#2d2a2e; white-space:nowrap;\">".data ++
  escapeHtml c.title ++
  "</span>\n            <span style=\"flex:1; border-bottom:1px dotted #ccc; margin:0 16px; min-width:40px;\"></span>\n            <span style=\"font-size:28px; color:#999;\">".data ++
  (toString (i + 1)).data ++
  "</span>\n        </div>".data

/-- The table-of-contents page's HTML. -/
def bTocHtml (lang : Str) (chapters : List Chapter) : Str :=
  "\n        <div style=\"width:100%; height:100%; background:#fdfbf7; padding:127px; box-sizing:border-box; display:flex; flex-direction:column; font-family:'Noto Serif TC','Songti SC',Georgia,serif;\">\n            <h2 style=\"font-size:56px; font-weight:bold; color:#2d2a2e; margin:0 0 30px 0; padding-bottom:20px; border-bottom:2px solid #ddd;\">\n                ".data ++
  bTocLabel lang ++
  "\n            </h2>\n            <div style=\"margin-top:40px;\">\n                ".data ++
  (chapters.enum.map (fun ic => bTocItem ic.1 ic.2)).flatten ++
  "\n            </div>\n        </div>\n    ".data

/-- The localized chapter label (`第 n 章` / `第n章` / `Capítulo n` /
`Chapter n`). -/
def bChapterLabel (lang : Str) (i : Nat) : Str :=
  if jsIncludes "chinese".data lang || jsIncludes "中文".data lang then
    "第 ".data ++ (toString (i + 1)).data ++ " 章".data
  else if jsIncludes "japanese".data lang || jsIncludes "日".data lang then
    "第".data ++ (toString (i + 1)).data ++ "章".data
  else if jsIncludes "spanish".data lang then "Capítulo ".data ++ (toString (i + 1)).data
  else "Chapter ".data ++ (toString (i + 1)).data

/-- The chapter title page's HTML (chapter at 0-based position `ci`). -/
def bChapterTitleHtml (lang : Str) (ci : Nat) (c : Chapter) : Str :=
  "\n            <div style=\"width:100%; height:100%; background:#fdfbf7; display:flex; flex-direction:column; align-items:center; justify-content:center; text-align:center; padding:127px; font-family:'Noto Serif TC','Songti SC',Georgia,serif;\">\n                <span style=\"font-size:28px; text-transform:uppercase; letter-spacing:8px; color:#999;\">".data ++
  bChapterLabel lang ci ++
  "</span>\n                <h2 style=\"font-size:60px; font-weight:bold; color:#2d2a2e; margin-top:32px; line-height:1.4;\">".data ++
  escapeHtml c.title ++
  "</h2>\n                <div style=\"width:80px; height:2px; background:#ccc; margin-top:40px;\"></div>\n            </div>\n        ".data

/-- One blank-line-delimited block of a section's content, converted to
the styled HTML of the Strategy-B content flow. -/
def bBlockHtml (block : Str) : Str :=
  let t := jsTrim block
  if t = [] then []
  else if "### ".data.isPrefixOf t then
    "<h4 style=\"font-size:36px; font-weight:bold; margin:32px 0 16px 0;\">".data ++
    escapeHtml (dropPrefixMatch "### ".data t) ++ "</h4>".data
  else if "## ".data.isPrefixOf t then
    "<h3 style=\"font-size:40px; font-weight:bold; margin:40px 0 20px 0;\">".data ++
    escapeHtml (dropPrefixMatch "## ".data t) ++ "</h3>".data
  else if "# ".data.isPrefixOf t then
    "<h2 style=\"font-size:48px; font-weight:bold; margin:48px 0 24px 0;\">".data ++
    escapeHtml (dropPrefixMatch "# ".data t) ++ "</h2>".data
  else if "> ".data.isPrefixOf t then
    "<blockquote style=\"margin:24px 48px; padding-left:32px; border-left:3px solid #ccc; font-style:italic; color:#555;\">".data ++
    escapeHtml (stripQuoteMarks t) ++ "</blockquote>".data
  else if t = "---".data ∨ t = "***".data then
    "<div style=\"text-align:center; margin:40px 0; color:#ccc; font-size:40px;\">· · ·</div>".data
  else
    "<p style=\"text-indent:2em; margin:12px 0; text-align:justify;\">".data ++
    subItalicHtml (subBoldHtml (escapeHtml t)) ++ "</p>".data

/-- One chapter's flowed content HTML: per non-empty section, the styled
`<h3>` section title, the converted blocks, and the `✦` divider. -/
def bContentHtml (c : Chapter) : Str :=
  c.sections.foldl (fun acc s =>
    if hasContent s then
      acc ++
      "<h3 style=\"font-size:40px; font-weight:bold; margin:48px 0 20px 0; color:#2d2a2e;\">".data ++
      escapeHtml s.title ++ "</h3>".data ++
      List.intercalate "\n".data ((jsSplitSep "\n\n".data (contentStr s)).map bBlockHtml) ++
      "<div style=\"text-align:center; margin:60px 0; color:#ddd;\">✦</div>".data
    else acc) []

/-- The back page's HTML. -/
def bBackHtml (topic author : Str) : Str :=
  "\n        <div style=\"width:100%; height:100%; background:#fdfbf7; display:flex; flex-direction:column; align-items:center; justify-content:center; text-align:center; padding:127px; font-family:'Noto Serif TC','Songti SC',Georgia,serif;\">\n            <p style=\"font-size:32px; font-style:italic; color:#666; line-height:2; max-width:80%;\">\n                \"".data ++
  escapeHtml topic ++
  "\"\n            </p>\n            ".data ++
  (if author ≠ [] then
    "\n                <div style=\"width:60px; height:1px; background:#ccc; margin:48px 0;\"></div>\n                <p style=\"font-size:28px; color:#999;\">".data ++
    escapeHtml author ++ "</p>\n            ".data
  else []) ++
  "\n        </div>\n    ".data

/-- The chapter loop of Strategy B: per chapter one rendered title page,
then — when the chapter's content HTML is non-empty —
`max 1 ⌈totalH / contentH⌉` clipped content pages whose printed page
numbers continue `runningPage`. -/
def bChapters (measureH : Nat → Nat) (lang : Str) :
    Nat → Nat → List Chapter → List BPage
  | _, _, [] => []
  | ci, running, c :: rest =>
    let html := bContentHtml c
    if html ≠ [] then
      let n := max 1 ((measureH ci + (bContentH - 1)) / bContentH)
      BPage.page (bChapterTitleHtml lang ci c) ::
        (List.range n).map (fun sl => BPage.clip html sl (running + sl)) ++
        bChapters measureH lang (ci + 1) (running + n) rest
    else
      BPage.page (bChapterTitleHtml lang ci c) ::
        bChapters measureH lang (ci + 1) running rest

/-- `exportPDF` (Strategy B), modelled as the ordered list of rendered
pages: optional cover, title page, table of contents, the chapter pages,
and the back page. -/
def exportPDF_B (measureH : Nat → Nat) (p : BookProject) : List BPage :=
  let title := p.settings.title
  let author := p.settings.authorName
  let lang := jsToLower p.settings.language
  (match p.coverImage with
   | some cover => if cover ≠ [] then [BPage.page (bCoverHtml cover)] else []
   | none => []) ++
  [BPage.page (bTitleHtml title author)] ++
  [BPage.page (bTocHtml lang p.structure'.chapters)] ++
  bChapters measureH lang 0 1 p.structure'.chapters ++
  [BPage.page (bBackHtml p.settings.topic author)]

/- ─── Model transformations used by the claims ─── -/

/-- Change a section's `status` field only. -/
def setStatus (f : SecStatus → SecStatus) (s : BookSection) : BookSection :=
  { s with status := f s.status }

/-- Change every section's `status` in a chapter. -/
def chSetStatus (f : SecStatus → SecStatus) (c : Chapter) : Chapter :=
  { c with sections := c.sections.map (setStatus f) }

/-- Apply an arbitrary status reassignment to every section of the
book. -/
def mapStatus (f : SecStatus → SecStatus) (p : BookProject) : BookProject :=
  { p with structure' := ⟨p.structure'.chapters.map (chSetStatus f)⟩ }

/-- Keep only a chapter's sections with non-empty content. -/
def chDropEmpty (c : Chapter) : Chapter :=
  { c with sections := c.sections.filter hasContent }

/-- Remove every section whose `content` is empty or absent. -/
def dropEmpty (p : BookProject) : BookProject :=
  { p with structure' := ⟨p.structure'.chapters.map chDropEmpty⟩ }

/- ─── Canonical (specification-side) forms of the outputs ───

These definitions follow the specification's words — traversal in
`structure.chapters` order, each chapter's sections in order restricted
to those with non-empty `content` — and are proved equal to the
source-shaped folds above. -/

/-- Canonical Markdown block of one included section. -/
def mdSectionBlock (s : BookSection) : Str :=
  "### ".data ++ s.title ++ "\n\n".data ++ contentStr s ++ "\n\n".data

/-- Canonical Markdown block of one chapter. -/
def mdChapterBlock (c : Chapter) : Str :=
  "## ".data ++ c.title ++ "\n\n".data ++
    ((c.sections.filter hasContent).map mdSectionBlock).flatten

/-- The Markdown header (title, optional author line). -/
def mdHeader (p : BookProject) : Str :=
  "# ".data ++ p.settings.title ++ "\n\n".data ++
    (if p.settings.authorName ≠ [] then
      "**".data ++ p.settings.authorName ++ "**\n\n---\n\n".data
    else [])

/-- Canonical plain-text block of one included section. -/
def txtSectionBlock (s : BookSection) : Str :=
  s.title ++ "\n\n".data ++ stripMarkup (contentStr s) ++ "\n\n".data

/-- Canonical plain-text block of one chapter. -/
def txtChapterBlock (c : Chapter) : Str :=
  "\n".data ++ List.replicate 40 '─' ++ "\n".data ++ c.title ++ "\n".data ++
    List.replicate 40 '─' ++ "\n\n".data ++
    ((c.sections.filter hasContent).map txtSectionBlock).flatten

/-- The plain-text header (underlined title, optional author line). -/
def txtHeader (p : BookProject) : Str :=
  p.settings.title ++ "\n".data ++ List.replicate p.settings.title.length '=' ++ "\n\n".data ++
    (if p.settings.authorName ≠ [] then
      "作者 / Author: ".data ++ p.settings.authorName ++ "\n\n".data
    else [])

/-- Canonical XHTML fragment of one included section of a chapter
document. -/
def epubSectionHtml (s : BookSection) : Str :=
  "<h2>".data ++ escapeHtml s.title ++ "</h2>\n".data ++ markdownToBasicHtml (contentStr s)

/-- Canonical DOCX paragraphs of one included section. -/
def docxSection (s : BookSection) : List DocxChild :=
  DocxChild.heading 2 s.title :: (jsSplitNL (contentStr s)).filterMap docxLine

/-- Canonical DOCX paragraphs of one chapter. -/
def docxChapter (c : Chapter) : List DocxChild :=
  DocxChild.heading 1 c.title ::
    ((c.sections.filter hasContent).map docxSection).flatten ++ [DocxChild.pageBreak]

/-- The DOCX title-page block. -/
def docxTitleBlock (p : BookProject) : List DocxChild :=
  [.spacer 4000, .centerRun p.settings.title 56 true] ++
    (if p.settings.authorName ≠ [] then
      [DocxChild.spacer 800, DocxChild.centerRun p.settings.authorName 28 false]
    else []) ++ [DocxChild.pageBreak]

/-- The draws of one content line: nothing for a blank line, otherwise
the wrapped lines of the stripped text. -/
def paLineTexts (wrap : Str → List Str) (line : Str) : List Str :=
  if jsTrim line = [] then []
  else wrap (stripLeadQuoteDash (stripMarkup (jsTrim line)))

/-- The draws of one included section: the wrapped section title, then
each line's draws. -/
def paSectionTexts (wrap : Str → List Str) (s : BookSection) : List Str :=
  wrap s.title ++ ((jsSplitNL (contentStr s)).map (paLineTexts wrap)).flatten

/-- The draws of one chapter: its wrapped title, then the included
sections' draws. -/
def paChapterTexts (wrap : Str → List Str) (c : Chapter) : List Str :=
  wrap c.title ++ ((c.sections.filter hasContent).map (paSectionTexts wrap)).flatten

/-- The full draw sequence of the Strategy-A export, in canonical form. -/
def pdfATexts (wrap : Str → List Str) (p : BookProject) : List Str :=
  wrap p.settings.title ++
    (if p.settings.authorName ≠ [] then [p.settings.authorName] else []) ++
    (p.structure'.chapters.map (paChapterTexts wrap)).flatten

/- ─── Canonical fragments and scanners used by the proofs ─── -/

/-- Canonical content-flow fragment of one included section of
Strategy B. -/
def bSecHtml (s : BookSection) : Str :=
  "<h3 style=\"font-size:40px; font-weight:bold; margin:48px 0 20px 0; color:#2d2a2e;\">".data ++
  escapeHtml s.title ++ "</h3>".data ++
  List.intercalate "\n".data ((jsSplitSep "\n\n".data (contentStr s)).map bBlockHtml) ++
  "<div style=\"text-align:center; margin:60px 0; color:#ddd;\">✦</div>".data

/-- The per-character effect of `escapeHtml`. -/
def escChar (c : Char) : Str :=
  if c = '&' then "&amp;".data
  else if c = '<' then "&lt;".data
  else if c = '>' then "&gt;".data
  else if c = '"' then "&quot;".data
  else [c]

/-- Scanner for the entity discipline: every `&` must start one of the
four entities emitted by `escapeHtml`. -/
def ampOk : Str → Bool
  | [] => true
  | c :: r =>
    (if c = '&' then
      ("amp;".data.isPrefixOf r || "lt;".data.isPrefixOf r ||
        "gt;".data.isPrefixOf r || "quot;".data.isPrefixOf r)
    else true) && ampOk r

/-- The characters of the tags inserted by the inline conversion. -/
def tagChars : Str := "<strong></strong><em></em>".data

/-- Page identity up to the printed running page number. -/
def bPageShape : BPage → BPage
  | .page h => .page h
  | .clip h sl _ => .clip h sl 0

/-- Canonical page block of one chapter of Strategy B, page numbers
forgotten: the chapter title page, then its clipped content pages. -/
def bChapterShape (measureH : Nat → Nat) (lang : Str) (ic : Nat × Chapter) : List BPage :=
  BPage.page (bChapterTitleHtml lang ic.1 ic.2) ::
    (if bContentHtml ic.2 ≠ [] then
      (List.range (max 1 ((measureH ic.1 + (bContentH - 1)) / bContentH))).map
        (fun sl => BPage.clip (bContentHtml ic.2) sl 0)
    else [])

/- ─── Test fixture ─── -/

/-- The written section `Hello` / `World` of the scenario model
(title `Test Book`, empty author, one chapter `Intro`). -/
def testSection : BookSection :=
  { id := "s1".data, title := "Hello".data, description := [],
    content := some "World".data, status := SecStatus.completed, wordCount := 1 }

/-- The chapter `Intro` of the scenario model. -/
def testChapter : Chapter :=
  { id := "c1".data, title := "Intro".data, sections := [testSection] }

/-- The full scenario model. -/
def testProject : BookProject :=
  { settings := { title := "Test Book".data, authorName := [], topic := [], language := [] },
    structure' := ⟨[testChapter]⟩,
    coverImage := none }

/- ─── Generic fold lemmas ─── -/

/-- A fold whose every step appends a state-independent chunk is the
concatenation of the chunks. -/
theorem foldl_chunks {α β : Type} (step : List β → α → List β) (g : α → List β)
    (h : ∀ acc x, step acc x = acc ++ g x) :
    ∀ (l : List α) (init : List β), l.foldl step init = init ++ (l.map g).flatten := by
  intro l
  induction l with
  | nil => intro init; simp
  | cons x xs ih =>
    intro init
    simp only [List.foldl_cons, List.map_cons, List.flatten_cons, ih, h]
    simp [List.append_assoc]

/-- Flattening chunks that are empty outside the filter equals
flattening over the filtered list. -/
theorem flatten_ite {α β : Type} (P : α → Bool) (A : α → List β) :
    ∀ l : List α,
      (l.map (fun x => if P x then A x else [])).flatten = ((l.filter P).map A).flatten := by
  intro l
  induction l with
  | nil => rfl
  | cons x xs ih =>
    by_cases h : P x <;> simp [List.filter_cons, h, ih]

/-- Steps that ignore elements outside the filter make folding the
filtered list equal to folding the whole list. -/
theorem foldl_filter_id {σ α : Type} (step : σ → α → σ) (P : α → Bool)
    (h : ∀ st x, P x = false → step st x = st) :
    ∀ (l : List α) (st : σ), (l.filter P).foldl step st = l.foldl step st := by
  intro l
  induction l with
  | nil => intro st; rfl
  | cons x xs ih =>
    intro st
    by_cases hx : P x
    · simp [List.filter_cons, hx, ih]
    · simp only [Bool.not_eq_true] at hx
      simp [List.filter_cons, hx, ih, h st x hx]

/-- Flattening the optional one-element chunks of `f` is `filterMap f`. -/
theorem flatten_toList {α β : Type} (f : α → Option β) :
    ∀ l : List α, (l.map (fun x => (f x).toList)).flatten = l.filterMap f := by
  intro l
  induction l with
  | nil => rfl
  | cons x xs ih =>
    cases hf : f x <;> simp [hf, ih, List.filterMap_cons]

/-- `buildMarkdown` in canonical form: header, then the chapter blocks
in `structure.chapters` order. -/
theorem buildMarkdown_canon (p : BookProject) :
    buildMarkdown p = mdHeader p ++ (p.structure'.chapters.map mdChapterBlock).flatten := by
  unfold buildMarkdown mdHeader
  rw [foldl_chunks _ mdChapterBlock]
  intro acc c
  rw [foldl_chunks _ (fun s => if hasContent s then mdSectionBlock s else [])]
  · rw [flatten_ite]
    simp [mdChapterBlock, List.append_assoc]
  · intro a s
    by_cases h : hasContent s <;> simp [h, mdSectionBlock, List.append_assoc, contentStr]

/-- Flattening singleton chunks is the map itself. -/
theorem flatten_singletons {α β : Type} (f : α → β) :
    ∀ l : List α, (l.map (fun x => [f x])).flatten = l.map f := by
  intro l
  induction l with
  | nil => rfl
  | cons x xs ih => simp [ih]

/-- `buildPlainText` in canonical form. -/
theorem buildPlainText_canon (p : BookProject) :
    buildPlainText p = txtHeader p ++ (p.structure'.chapters.map txtChapterBlock).flatten := by
  unfold buildPlainText txtHeader
  rw [foldl_chunks _ txtChapterBlock]
  intro acc c
  rw [foldl_chunks _ (fun s => if hasContent s then txtSectionBlock s else [])]
  · rw [flatten_ite]
    simp [txtChapterBlock, List.append_assoc]
  · intro a s
    by_cases h : hasContent s <;> simp [h, txtSectionBlock, List.append_assoc]

/-- `epubChapterBody` in canonical form: escaped `<h1>`, then the
included sections' fragments in order. -/
theorem epubChapterBody_canon (c : Chapter) :
    epubChapterBody c =
      "<h1>".data ++ escapeHtml c.title ++ "</h1>\n".data ++
        ((c.sections.filter hasContent).map epubSectionHtml).flatten := by
  unfold epubChapterBody
  rw [foldl_chunks _ (fun s => if hasContent s then epubSectionHtml s else [])
    (by intro a s; by_cases h : hasContent s <;>
      simp [h, epubSectionHtml, List.append_assoc])]
  rw [flatten_ite]

/-- `chapterFiles` in canonical form: one record per chapter, in enum
order. -/
theorem chapterFiles_canon (p : BookProject) :
    chapterFiles p =
      p.structure'.chapters.enum.map
        (fun ic => ⟨chapterId ic.1, chapterFilename ic.1, ic.2.title⟩) := by
  unfold chapterFiles
  rw [foldl_chunks _
    (fun ic => [(⟨chapterId ic.1, chapterFilename ic.1, ic.2.title⟩ : ChapterFile)])
    (by intro a ic; rfl)]
  rw [flatten_singletons]
  simp

/-- `exportDOCX` in canonical form. -/
theorem exportDOCX_canon (p : BookProject) :
    exportDOCX p = docxTitleBlock p ++ (p.structure'.chapters.map docxChapter).flatten := by
  unfold exportDOCX docxTitleBlock
  rw [foldl_chunks _ docxChapter (by
    intro acc c
    rw [foldl_chunks _ (fun s => if hasContent s then docxSection s else [])
      (by
        intro a s
        by_cases h : hasContent s
        · simp only [h, if_true]
          rw [foldl_chunks _ (fun line => (docxLine line).toList) (fun a' l => rfl),
            flatten_toList]
          simp [docxSection, List.append_assoc]
        · simp [h])]
    rw [flatten_ite]
    simp [docxChapter, List.append_assoc])]

/- ─── Strategy-A observation lemmas ─── -/

/-- A fold whose steps append state-independent draw chunks. -/
theorem foldl_texts {α : Type} (step : PdfA → α → PdfA) (g : α → List Str)
    (h : ∀ st x, (step st x).texts = st.texts ++ g x) :
    ∀ (l : List α) (st : PdfA), (l.foldl step st).texts = st.texts ++ (l.map g).flatten := by
  intro l
  induction l with
  | nil => intro st; simp
  | cons x xs ih =>
    intro st
    simp only [List.foldl_cons, List.map_cons, List.flatten_cons, ih, h]
    simp [List.append_assoc]

/-- A fold whose steps never decrease the page count. -/
theorem foldl_pages_mono {α : Type} (step : PdfA → α → PdfA)
    (h : ∀ st x, st.pages ≤ (step st x).pages) :
    ∀ (l : List α) (st : PdfA), st.pages ≤ (l.foldl step st).pages := by
  intro l
  induction l with
  | nil => intro st; simp
  | cons x xs ih =>
    intro st
    exact le_trans (h st x) (ih (step st x))

/-- `checkNewPage` draws nothing. -/
theorem paCheckNewPage_texts (n : Nat) (st : PdfA) :
    (paCheckNewPage n st).texts = st.texts := by
  unfold paCheckNewPage paAddPage
  split <;> rfl

/-- `checkNewPage` never removes a page. -/
theorem paCheckNewPage_pages (n : Nat) (st : PdfA) :
    st.pages ≤ (paCheckNewPage n st).pages := by
  unfold paCheckNewPage paAddPage
  split <;> simp

/-- `paLine` appends exactly its line's draws. -/
theorem paLine_texts (wrap : Str → List Str) (line : Str) (st : PdfA) :
    (paLine wrap line st).texts = st.texts ++ paLineTexts wrap line := by
  unfold paLine paLineTexts
  by_cases h : jsTrim line = []
  · simp [h]
  · simp only [h, if_false]
    rw [foldl_texts _ (fun w => [w])
      (by intro st' w; simp [paDraw, paCheckNewPage_texts])]
    rw [flatten_singletons]
    simp

/-- `paSection` appends its section's draws (nothing when the section
has no content). -/
theorem paSection_texts (wrap : Str → List Str) (s : BookSection) (st : PdfA) :
    (paSection wrap s st).texts =
      st.texts ++ (if hasContent s then paSectionTexts wrap s else []) := by
  unfold paSection paSectionTexts
  by_cases h : hasContent s
  · simp only [h, if_true]
    rw [foldl_texts _ (paLineTexts wrap) (by intro st' line; exact paLine_texts wrap line st')]
    simp [paDraw, paCheckNewPage_texts, List.append_assoc]
  · simp [h]

/-- `paChapter` appends its chapter's draws. -/
theorem paChapter_texts (wrap : Str → List Str) (c : Chapter) (st : PdfA) :
    (paChapter wrap c st).texts = st.texts ++ paChapterTexts wrap c := by
  unfold paChapter paChapterTexts
  rw [foldl_texts _ (fun s => if hasContent s then paSectionTexts wrap s else [])
    (by intro st' s; exact paSection_texts wrap s st')]
  rw [flatten_ite]
  simp [paDraw, paAddPage, List.append_assoc]

/-- The Strategy-A export draws exactly the canonical sequence: title,
optional author, then the chapters in `structure.chapters` order. -/
theorem exportPDF_A_texts (wrap : Str → List Str) (p : BookProject) :
    (exportPDF_A wrap p).texts = pdfATexts wrap p := by
  unfold exportPDF_A pdfATexts
  rw [foldl_texts _ (paChapterTexts wrap)
    (by intro st' c; exact paChapter_texts wrap c st')]
  by_cases h : p.settings.authorName ≠ [] <;> simp [h, paDraw, List.append_assoc]

/-- `paLine` never removes a page. -/
theorem paLine_pages (wrap : Str → List Str) (line : Str) (st : PdfA) :
    st.pages ≤ (paLine wrap line st).pages := by
  unfold paLine
  by_cases h : jsTrim line = []
  · simp [h]
  · simp only [h, if_false]
    exact foldl_pages_mono _
      (by
        intro st' w
        simp only [paDraw]
        exact paCheckNewPage_pages 7 st') _ st

/-- `paSection` never removes a page. -/
theorem paSection_pages (wrap : Str → List Str) (s : BookSection) (st : PdfA) :
    st.pages ≤ (paSection wrap s st).pages := by
  unfold paSection
  by_cases h : hasContent s
  · simp only [h, if_true]
    simp only [paDraw]
    refine le_trans (paCheckNewPage_pages 20 st) ?_
    refine le_trans ?_
      (foldl_pages_mono _ (fun st' line => paLine_pages wrap line st')
        (jsSplitNL (contentStr s)) _)
    exact Nat.le_refl _
  · simp [h]

/-- Every chapter adds at least its two unconditional fresh pages. -/
theorem paChapter_pages (wrap : Str → List Str) (c : Chapter) (st : PdfA) :
    st.pages + 2 ≤ (paChapter wrap c st).pages := by
  unfold paChapter
  simp only [paDraw, paAddPage]
  refine le_trans ?_
    (foldl_pages_mono _ (fun st' s => paSection_pages wrap s st') c.sections _)
  exact Nat.le_refl _

/-- Folding the chapters adds at least two pages per chapter. -/
theorem paChapters_pages (wrap : Str → List Str) :
    ∀ (l : List Chapter) (st : PdfA),
      st.pages + 2 * l.length ≤ (l.foldl (fun st c => paChapter wrap c st) st).pages := by
  intro l
  induction l with
  | nil => intro st; simp
  | cons c cs ih =>
    intro st
    refine le_trans ?_ (ih (paChapter wrap c st))
    have h2 := paChapter_pages wrap c st
    simp only [List.length_cons]
    omega

/-- The Strategy-A export produces at least `2 × chapters + 1` pages. -/
theorem exportPDF_A_pages (wrap : Str → List Str) (p : BookProject) :
    2 * p.structure'.chapters.length + 1 ≤ (exportPDF_A wrap p).pages := by
  simp only [exportPDF_A]
  refine le_trans ?_ (paChapters_pages wrap p.structure'.chapters _)
  by_cases ha : p.settings.authorName ≠ [] <;> simp [ha, paDraw] <;> omega

/-- `bContentHtml` in canonical form: the included sections' fragments
in order. -/
theorem bContentHtml_canon (c : Chapter) :
    bContentHtml c = ((c.sections.filter hasContent).map bSecHtml).flatten := by
  unfold bContentHtml
  rw [foldl_chunks _ (fun s => if hasContent s then bSecHtml s else [])
    (by intro a s; by_cases h : hasContent s <;> simp [h, bSecHtml, List.append_assoc])]
  rw [flatten_ite]
  simp

/-- A chapter with at least one section with non-empty content has a
non-empty content flow. -/
theorem bContentHtml_ne (c : Chapter) (h : ∃ s ∈ c.sections, hasContent s) :
    bContentHtml c ≠ [] := by
  rw [bContentHtml_canon]
  obtain ⟨s, hs, hc⟩ := h
  have hmem : s ∈ c.sections.filter hasContent := List.mem_filter.mpr ⟨hs, hc⟩
  obtain ⟨a, as', heq⟩ := List.exists_cons_of_ne_nil (List.ne_nil_of_mem hmem)
  rw [heq]
  simp only [List.map_cons, List.flatten_cons]
  intro hfalse
  have : bSecHtml a ≠ [] := by
    unfold bSecHtml
    intro hx
    exact absurd (congrArg List.length hx) (by simp)
  exact this (List.append_eq_nil.mp hfalse).1

/-- Every chapter contributes its title page and, when its content flow
is non-empty, at least one content page. -/
theorem bChapters_length (measureH : Nat → Nat) (lang : Str) :
    ∀ (chapters : List Chapter) (ci run : Nat),
      (∀ c ∈ chapters, bContentHtml c ≠ []) →
      2 * chapters.length ≤ (bChapters measureH lang ci run chapters).length := by
  intro chapters
  induction chapters with
  | nil => intro ci run _; simp
  | cons c rest ih =>
    intro ci run h
    have hc : bContentHtml c ≠ [] := h c (List.mem_cons_self c rest)
    have hrest : ∀ c' ∈ rest, bContentHtml c' ≠ [] :=
      fun c' hc' => h c' (List.mem_cons_of_mem c hc')
    simp only [bChapters, hc, if_true, ne_eq, not_false_iff]
    have hn : 1 ≤ max 1 ((measureH ci + (bContentH - 1)) / bContentH) := le_max_left 1 _
    have := ih (ci + 1) (run + max 1 ((measureH ci + (bContentH - 1)) / bContentH)) hrest
    simp only [List.length_cons, List.length_append, List.length_map, List.length_range]
    omega

/-- The Strategy-B export produces at least `2 × chapters + 1` pages
when every chapter has a section with content. -/
theorem exportPDF_B_pages (measureH : Nat → Nat) (p : BookProject)
    (h : ∀ c ∈ p.structure'.chapters, ∃ s ∈ c.sections, hasContent s) :
    2 * p.structure'.chapters.length + 1 ≤ (exportPDF_B measureH p).length := by
  unfold exportPDF_B
  have hb := bChapters_length measureH (jsToLower p.settings.language)
    p.structure'.chapters 0 1 (fun c hc => bContentHtml_ne c (h c hc))
  simp only [List.length_append, List.length_cons, List.length_nil]
  omega

/- ─── Status and empty-section invariance ─── -/

/-- A status change never alters the content gate. -/
theorem hasContent_setStatus (f : SecStatus → SecStatus) (s : BookSection) :
    hasContent (setStatus f s) = hasContent s := rfl

/-- Filtering by the content gate commutes with a status reassignment. -/
theorem filter_map_setStatus (f : SecStatus → SecStatus) :
    ∀ ss : List BookSection,
      (ss.map (setStatus f)).filter hasContent = (ss.filter hasContent).map (setStatus f) := by
  intro ss
  induction ss with
  | nil => rfl
  | cons s ss ih =>
    by_cases h : hasContent s <;>
      simp [List.filter_cons, hasContent_setStatus, h, ih]

/-- The content filter is idempotent. -/
theorem filter_hasContent_idem (ss : List BookSection) :
    (ss.filter hasContent).filter hasContent = ss.filter hasContent := by
  simp [List.filter_filter]

/-- `mdChapterBlock` ignores statuses. -/
theorem mdChapterBlock_setStatus (f : SecStatus → SecStatus) (c : Chapter) :
    mdChapterBlock (chSetStatus f c) = mdChapterBlock c := by
  unfold mdChapterBlock chSetStatus
  rw [filter_map_setStatus, List.map_map]
  rfl

/-- `mdChapterBlock` ignores sections already filtered out. -/
theorem mdChapterBlock_dropEmpty (c : Chapter) :
    mdChapterBlock (chDropEmpty c) = mdChapterBlock c := by
  unfold mdChapterBlock chDropEmpty
  rw [filter_hasContent_idem]

/-- `txtChapterBlock` ignores statuses. -/
theorem txtChapterBlock_setStatus (f : SecStatus → SecStatus) (c : Chapter) :
    txtChapterBlock (chSetStatus f c) = txtChapterBlock c := by
  unfold txtChapterBlock chSetStatus
  rw [filter_map_setStatus, List.map_map]
  rfl

/-- `txtChapterBlock` ignores sections already filtered out. -/
theorem txtChapterBlock_dropEmpty (c : Chapter) :
    txtChapterBlock (chDropEmpty c) = txtChapterBlock c := by
  unfold txtChapterBlock chDropEmpty
  rw [filter_hasContent_idem]

/-- `epubChapterBody` ignores statuses. -/
theorem epubChapterBody_setStatus (f : SecStatus → SecStatus) (c : Chapter) :
    epubChapterBody (chSetStatus f c) = epubChapterBody c := by
  rw [epubChapterBody_canon, epubChapterBody_canon]
  unfold chSetStatus
  simp only []
  rw [filter_map_setStatus, List.map_map]
  rfl

/-- `epubChapterBody` ignores sections already filtered out. -/
theorem epubChapterBody_dropEmpty (c : Chapter) :
    epubChapterBody (chDropEmpty c) = epubChapterBody c := by
  rw [epubChapterBody_canon, epubChapterBody_canon]
  unfold chDropEmpty
  simp only []
  rw [filter_hasContent_idem]

/-- `epubChapterXhtml` ignores statuses. -/
theorem epubChapterXhtml_setStatus (f : SecStatus → SecStatus) (c : Chapter) :
    epubChapterXhtml (chSetStatus f c) = epubChapterXhtml c := by
  unfold epubChapterXhtml
  rw [epubChapterBody_setStatus]
  rfl

/-- `epubChapterXhtml` ignores sections already filtered out. -/
theorem epubChapterXhtml_dropEmpty (c : Chapter) :
    epubChapterXhtml (chDropEmpty c) = epubChapterXhtml c := by
  unfold epubChapterXhtml
  rw [epubChapterBody_dropEmpty]
  rfl

/-- `docxChapter` ignores statuses. -/
theorem docxChapter_setStatus (f : SecStatus → SecStatus) (c : Chapter) :
    docxChapter (chSetStatus f c) = docxChapter c := by
  unfold docxChapter chSetStatus
  rw [filter_map_setStatus, List.map_map]
  rfl

/-- `docxChapter` ignores sections already filtered out. -/
theorem docxChapter_dropEmpty (c : Chapter) :
    docxChapter (chDropEmpty c) = docxChapter c := by
  unfold docxChapter chDropEmpty
  rw [filter_hasContent_idem]

/-- `paChapterTexts` ignores statuses. -/
theorem paChapterTexts_setStatus (wrap : Str → List Str) (f : SecStatus → SecStatus)
    (c : Chapter) : paChapterTexts wrap (chSetStatus f c) = paChapterTexts wrap c := by
  unfold paChapterTexts chSetStatus
  rw [filter_map_setStatus, List.map_map]
  rfl

/-- `bContentHtml` ignores statuses. -/
theorem bContentHtml_setStatus (f : SecStatus → SecStatus) (c : Chapter) :
    bContentHtml (chSetStatus f c) = bContentHtml c := by
  rw [bContentHtml_canon, bContentHtml_canon]
  unfold chSetStatus
  simp only []
  rw [filter_map_setStatus, List.map_map]
  rfl

/-- `bContentHtml` ignores sections already filtered out. -/
theorem bContentHtml_dropEmpty (c : Chapter) :
    bContentHtml (chDropEmpty c) = bContentHtml c := by
  rw [bContentHtml_canon, bContentHtml_canon]
  unfold chDropEmpty
  simp only []
  rw [filter_hasContent_idem]

/-- `buildMarkdown` never reads a section's status. -/
theorem buildMarkdown_mapStatus (f : SecStatus → SecStatus) (p : BookProject) :
    buildMarkdown (mapStatus f p) = buildMarkdown p := by
  rw [buildMarkdown_canon, buildMarkdown_canon]
  unfold mapStatus
  simp only [List.map_map]
  congr 1
  congr 1
  apply List.map_congr_left
  intro c _
  exact mdChapterBlock_setStatus f c

/-- `buildMarkdown` is unchanged by removing empty sections. -/
theorem buildMarkdown_dropEmpty (p : BookProject) :
    buildMarkdown (dropEmpty p) = buildMarkdown p := by
  rw [buildMarkdown_canon, buildMarkdown_canon]
  unfold dropEmpty
  simp only [List.map_map]
  congr 1
  congr 1
  apply List.map_congr_left
  intro c _
  exact mdChapterBlock_dropEmpty c

/-- `buildPlainText` never reads a section's status. -/
theorem buildPlainText_mapStatus (f : SecStatus → SecStatus) (p : BookProject) :
    buildPlainText (mapStatus f p) = buildPlainText p := by
  rw [buildPlainText_canon, buildPlainText_canon]
  unfold mapStatus
  simp only [List.map_map]
  congr 1
  congr 1
  apply List.map_congr_left
  intro c _
  exact txtChapterBlock_setStatus f c

/-- `buildPlainText` is unchanged by removing empty sections. -/
theorem buildPlainText_dropEmpty (p : BookProject) :
    buildPlainText (dropEmpty p) = buildPlainText p := by
  rw [buildPlainText_canon, buildPlainText_canon]
  unfold dropEmpty
  simp only [List.map_map]
  congr 1
  congr 1
  apply List.map_congr_left
  intro c _
  exact txtChapterBlock_dropEmpty c

/-- `exportDOCX` never reads a section's status. -/
theorem exportDOCX_mapStatus (f : SecStatus → SecStatus) (p : BookProject) :
    exportDOCX (mapStatus f p) = exportDOCX p := by
  rw [exportDOCX_canon, exportDOCX_canon]
  unfold mapStatus
  simp only [List.map_map]
  congr 1
  congr 1
  apply List.map_congr_left
  intro c _
  exact docxChapter_setStatus f c

/-- `exportDOCX` is unchanged by removing empty sections. -/
theorem exportDOCX_dropEmpty (p : BookProject) :
    exportDOCX (dropEmpty p) = exportDOCX p := by
  rw [exportDOCX_canon, exportDOCX_canon]
  unfold dropEmpty
  simp only [List.map_map]
  congr 1
  congr 1
  apply List.map_congr_left
  intro c _
  exact docxChapter_dropEmpty c

/-- `chapterFiles` never reads a section's status. -/
theorem chapterFiles_setStatus (f : SecStatus → SecStatus) (p : BookProject) :
    chapterFiles (mapStatus f p) = chapterFiles p := by
  rw [chapterFiles_canon, chapterFiles_canon]
  unfold mapStatus
  simp only [List.enum_map, List.map_map]
  apply List.map_congr_left
  intro ic _
  rfl

/-- `chapterFiles` is unchanged by removing empty sections. -/
theorem chapterFiles_dropEmpty (p : BookProject) :
    chapterFiles (dropEmpty p) = chapterFiles p := by
  rw [chapterFiles_canon, chapterFiles_canon]
  unfold dropEmpty
  simp only [List.enum_map, List.map_map]
  apply List.map_congr_left
  intro ic _
  rfl

/-- `exportEPUB` never reads a section's status. -/
theorem exportEPUB_mapStatus (now : Nat) (nowIso : Str) (f : SecStatus → SecStatus)
    (p : BookProject) : exportEPUB now nowIso (mapStatus f p) = exportEPUB now nowIso p := by
  unfold exportEPUB
  rw [chapterFiles_setStatus]
  show _ ++ _ ++ _ = _ ++ _ ++ _
  congr 1
  congr 1
  unfold mapStatus
  simp only [List.enum_map, List.map_map]
  apply List.map_congr_left
  intro ic _
  show (⟨_, epubChapterXhtml (chSetStatus f ic.2), none⟩ : ZipEntry) = _
  rw [epubChapterXhtml_setStatus]
  rfl

/-- `exportEPUB` is unchanged by removing empty sections. -/
theorem exportEPUB_dropEmpty (now : Nat) (nowIso : Str) (p : BookProject) :
    exportEPUB now nowIso (dropEmpty p) = exportEPUB now nowIso p := by
  unfold exportEPUB
  rw [chapterFiles_dropEmpty]
  show _ ++ _ ++ _ = _ ++ _ ++ _
  congr 1
  congr 1
  unfold dropEmpty
  simp only [List.enum_map, List.map_map]
  apply List.map_congr_left
  intro ic _
  show (⟨_, epubChapterXhtml (chDropEmpty ic.2), none⟩ : ZipEntry) = _
  rw [epubChapterXhtml_dropEmpty]
  rfl

/-- A status change never alters one Strategy-A section step. -/
theorem paSection_setStatus (wrap : Str → List Str) (f : SecStatus → SecStatus)
    (s : BookSection) (st : PdfA) : paSection wrap (setStatus f s) st = paSection wrap s st := rfl

/-- A section without content leaves the Strategy-A state unchanged. -/
theorem paSection_skip (wrap : Str → List Str) (s : BookSection) (st : PdfA)
    (h : hasContent s = false) : paSection wrap s st = st := by
  unfold paSection
  simp [h]

/-- A status change never alters one Strategy-A chapter step. -/
theorem paChapter_setStatus (wrap : Str → List Str) (f : SecStatus → SecStatus)
    (c : Chapter) (st : PdfA) : paChapter wrap (chSetStatus f c) st = paChapter wrap c st := by
  unfold paChapter chSetStatus
  simp only []
  rw [List.foldl_map]
  rfl

/-- Removing the empty sections never alters one Strategy-A chapter
step. -/
theorem paChapter_dropEmpty (wrap : Str → List Str) (c : Chapter) (st : PdfA) :
    paChapter wrap (chDropEmpty c) st = paChapter wrap c st := by
  unfold paChapter chDropEmpty
  simp only []
  rw [foldl_filter_id _ hasContent (fun st' s h => paSection_skip wrap s st' h)]

/-- Strategy A never reads a section's status. -/
theorem exportPDF_A_mapStatus (wrap : Str → List Str) (f : SecStatus → SecStatus)
    (p : BookProject) : exportPDF_A wrap (mapStatus f p) = exportPDF_A wrap p := by
  unfold exportPDF_A mapStatus
  simp only []
  rw [List.foldl_map]
  have hfun : (fun (st : PdfA) (c : Chapter) => paChapter wrap (chSetStatus f c) st) =
      fun st c => paChapter wrap c st := by
    funext st c
    exact paChapter_setStatus wrap f c st
  rw [hfun]

/-- Strategy A is unchanged by removing empty sections. -/
theorem exportPDF_A_dropEmpty (wrap : Str → List Str) (p : BookProject) :
    exportPDF_A wrap (dropEmpty p) = exportPDF_A wrap p := by
  unfold exportPDF_A dropEmpty
  simp only []
  rw [List.foldl_map]
  have hfun : (fun (st : PdfA) (c : Chapter) => paChapter wrap (chDropEmpty c) st) =
      fun st c => paChapter wrap c st := by
    funext st c
    exact paChapter_dropEmpty wrap c st
  rw [hfun]

/-- The Strategy-B chapter loop never reads a section's status. -/
theorem bChapters_setStatus (measureH : Nat → Nat) (lang : Str) (f : SecStatus → SecStatus) :
    ∀ (chapters : List Chapter) (ci run : Nat),
      bChapters measureH lang ci run (chapters.map (chSetStatus f)) =
        bChapters measureH lang ci run chapters := by
  intro chapters
  induction chapters with
  | nil => intro ci run; rfl
  | cons c rest ih =>
    intro ci run
    simp only [List.map_cons, bChapters, bContentHtml_setStatus]
    have htitle : bChapterTitleHtml lang ci (chSetStatus f c) = bChapterTitleHtml lang ci c := rfl
    simp only [htitle, ih]

/-- The Strategy-B chapter loop is unchanged by removing empty
sections. -/
theorem bChapters_dropEmpty (measureH : Nat → Nat) (lang : Str) :
    ∀ (chapters : List Chapter) (ci run : Nat),
      bChapters measureH lang ci run (chapters.map chDropEmpty) =
        bChapters measureH lang ci run chapters := by
  intro chapters
  induction chapters with
  | nil => intro ci run; rfl
  | cons c rest ih =>
    intro ci run
    simp only [List.map_cons, bChapters, bContentHtml_dropEmpty]
    have htitle : bChapterTitleHtml lang ci (chDropEmpty c) = bChapterTitleHtml lang ci c := rfl
    simp only [htitle, ih]

set_option maxRecDepth 4000 in
/-- The table-of-contents page never reads a section's status. -/
theorem bTocHtml_setStatus (lang : Str) (f : SecStatus → SecStatus) (chapters : List Chapter) :
    bTocHtml lang (chapters.map (chSetStatus f)) = bTocHtml lang chapters := by
  unfold bTocHtml
  simp only [List.enum_map, List.map_map]
  have hfun : ((fun ic => bTocItem ic.1 ic.2) ∘ Prod.map id (chSetStatus f)) =
      fun (ic : Nat × Chapter) => bTocItem ic.1 ic.2 := by
    funext ic
    rfl
  rw [hfun]

set_option maxRecDepth 4000 in
/-- The table-of-contents page is unchanged by removing empty
sections. -/
theorem bTocHtml_dropEmpty (lang : Str) (chapters : List Chapter) :
    bTocHtml lang (chapters.map chDropEmpty) = bTocHtml lang chapters := by
  unfold bTocHtml
  simp only [List.enum_map, List.map_map]
  have hfun : ((fun ic => bTocItem ic.1 ic.2) ∘ Prod.map id chDropEmpty) =
      fun (ic : Nat × Chapter) => bTocItem ic.1 ic.2 := by
    funext ic
    rfl
  rw [hfun]

/-- Strategy B never reads a section's status. -/
theorem exportPDF_B_mapStatus (measureH : Nat → Nat) (f : SecStatus → SecStatus)
    (p : BookProject) : exportPDF_B measureH (mapStatus f p) = exportPDF_B measureH p := by
  unfold exportPDF_B mapStatus
  simp only []
  rw [bChapters_setStatus, bTocHtml_setStatus]

/-- Strategy B is unchanged by removing empty sections. -/
theorem exportPDF_B_dropEmpty (measureH : Nat → Nat) (p : BookProject) :
    exportPDF_B measureH (dropEmpty p) = exportPDF_B measureH p := by
  unfold exportPDF_B dropEmpty
  simp only []
  rw [bChapters_dropEmpty, bTocHtml_dropEmpty]

/- ─── Properties of the regex scan ─── -/

/-- A string without any match is left unchanged by the scan, whatever
the fuel. -/
theorem replGo_no_match (f : MatchFn) :
    ∀ l : Str, hasM f l = false → ∀ fuel : Nat, replGo f fuel l = l := by
  intro l
  induction l with
  | nil => intro _ fuel; cases fuel <;> rfl
  | cons c r ih =>
    intro h fuel
    simp only [hasM, Bool.or_eq_false_iff] at h
    cases fuel with
    | zero => rfl
    | succ fuel =>
      have hf : f (c :: r) = none := by
        cases hx : f (c :: r) with
        | none => rfl
        | some v => rw [hx] at h; simp at h
      simp only [replGo, hf]
      rw [ih h.2 fuel]

/-- With enough fuel the scan does not depend on the exact amount,
provided every match consumes at least one character. -/
theorem replGo_fuel (f : MatchFn)
    (hf : ∀ l rep rest, f l = some (rep, rest) → rest.length < l.length) :
    ∀ (f₁ : Nat), ∀ (f₂ : Nat) (l : Str), l.length ≤ f₁ → l.length ≤ f₂ →
      replGo f f₁ l = replGo f f₂ l := by
  intro f₁
  induction f₁ with
  | zero =>
    intro f₂ l h1 _
    have : l = [] := List.length_eq_zero.mp (Nat.le_zero.mp h1)
    subst this
    cases f₂ <;> rfl
  | succ f₁ ih =>
    intro f₂ l h1 h2
    cases l with
    | nil => cases f₂ <;> rfl
    | cons c r =>
      cases f₂ with
      | zero => simp at h2
      | succ f₂ =>
        simp only [replGo]
        cases hx : f (c :: r) with
        | none =>
          simp only []
          rw [ih f₂ r (by simpa using h1) (by simpa using h2)]
        | some v =>
          simp only []
          have hlt := hf (c :: r) v.1 v.2 (by rw [hx])
          rw [ih f₂ v.2 (by omega) (by omega)]

/-- Every character of the scan's output comes from the input or from a
match's replacement text. -/
theorem replGo_mem (f : MatchFn) (T : Str)
    (hf : ∀ l rep rest, f l = some (rep, rest) →
      (∀ ch ∈ rep, ch ∈ T ∨ ch ∈ l) ∧ (∀ ch ∈ rest, ch ∈ l)) :
    ∀ (fuel : Nat) (l : Str) (ch : Char), ch ∈ replGo f fuel l → ch ∈ T ∨ ch ∈ l := by
  intro fuel
  induction fuel with
  | zero => intro l ch h; exact Or.inr h
  | succ fuel ih =>
    intro l ch h
    cases l with
    | nil => simp [replGo] at h
    | cons c r =>
      simp only [replGo] at h
      cases hx : f (c :: r) with
      | none =>
        rw [hx] at h
        simp only [List.mem_cons] at h
        rcases h with h | h
        · exact Or.inr (by simp [h])
        · rcases ih r ch h with h' | h'
          · exact Or.inl h'
          · exact Or.inr (List.mem_cons_of_mem c h')
      | some v =>
        rw [hx] at h
        rcases List.mem_append.mp h with h | h
        · rcases (hf (c :: r) v.1 v.2 (by rw [hx])).1 ch h with h' | h'
          · exact Or.inl h'
          · exact Or.inr h'
        · rcases ih v.2 ch h with h' | h'
          · exact Or.inl h'
          · exact Or.inr ((hf (c :: r) v.1 v.2 (by rw [hx])).2 ch h')

/-- A string in which none of the five patterns matches is a fixed
point of the whole strip pipeline, and the pipeline is idempotent on
such strings. -/
theorem stripMarkup_fixed (x : Str) (h : noMarkup x = true) : stripMarkup x = x := by
  unfold noMarkup at h
  simp only [Bool.not_eq_true', Bool.or_eq_false_iff] at h
  obtain ⟨⟨⟨⟨h1, h2⟩, h3⟩, h4⟩, h5⟩ := h
  unfold stripMarkup stripHeading stripBold stripItalic stripCode stripLink
  rw [replGo_no_match headF x h1, replGo_no_match boldF x h2,
    replGo_no_match italicF x h3, replGo_no_match codeF x h4,
    replGo_no_match linkF x h5]

/-- If the heading regex matches at the head, it consumes the `#` run
plus one whitespace character: at least 2 and at most all characters. -/
theorem headMatchLen_bounds (l : Str) (k : Nat) (h : headMatchLen l = some k) :
    2 ≤ k ∧ k ≤ l.length := by
  cases l with
  | nil => simp [headMatchLen] at h
  | cons c r =>
    simp only [headMatchLen] at h
    by_cases hc : c = '#'
    · subst hc
      simp only [if_true] at h
      by_cases hm : countHash ('#' :: r) ≤ 6
      · simp only [hm, if_true] at h
        cases hg : ('#' :: r).get? (countHash ('#' :: r)) with
        | none => rw [hg] at h; simp at h
        | some w =>
          rw [hg] at h
          by_cases hw : jsWhitespace w
          · simp only [hw, if_true, Option.some_inj] at h
            have hlt : countHash ('#' :: r) < ('#' :: r).length := by
              by_contra hge
              rw [List.get?_eq_none.mpr (Nat.le_of_not_lt hge)] at hg
              exact Option.noConfusion hg
            have hpos : 1 ≤ countHash ('#' :: r) := by
              simp [countHash]
            omega
          · simp [hw] at h
      · simp [hm] at h
    · simp [hc] at h

/-- The heading matcher always consumes characters. -/
theorem headF_consumes (l : Str) (rep rest : Str) (h : headF l = some (rep, rest)) :
    rest.length < l.length := by
  unfold headF at h
  cases hk : headMatchLen l with
  | none => rw [hk] at h; exact Option.noConfusion h
  | some k =>
    rw [hk] at h
    obtain ⟨h1, h2⟩ := headMatchLen_bounds l k hk
    simp only [Option.some_inj, Prod.mk.injEq] at h
    rw [← h.2]
    simp only [List.length_drop]
    omega

/-- The heading matcher never fires at a non-`#` character. -/
theorem headF_ne (c : Char) (r : Str) (hc : c ≠ '#') : headF (c :: r) = none := by
  unfold headF headMatchLen
  simp [hc]

/-- Scanning past a `#`-free prefix leaves it untouched. -/
theorem replGo_headF_prefix :
    ∀ (a : Str), '#' ∉ a → ∀ (b : Str) (fuel : Nat),
      replGo headF (a.length + fuel) (a ++ b) = a ++ replGo headF fuel b := by
  intro a
  induction a with
  | nil => intro _ b fuel; simp
  | cons c a' ih =>
    intro ha b fuel
    have hc : c ≠ '#' := fun hx => ha (by simp [hx])
    have ha' : '#' ∉ a' := fun hx => ha (List.mem_cons_of_mem c hx)
    have hlen : (c :: a').length + fuel = (a'.length + fuel) + 1 := by
      simp [Nat.succ_add]
    calc replGo headF ((c :: a').length + fuel) ((c :: a') ++ b)
        = replGo headF ((a'.length + fuel) + 1) (c :: (a' ++ b)) := by rw [hlen]; rfl
      _ = c :: replGo headF (a'.length + fuel) (a' ++ b) := by
            simp only [replGo, headF_ne c (a' ++ b) hc]
      _ = c :: (a' ++ replGo headF fuel b) := by rw [ih ha' b fuel]

/-- The heading pass deletes an inserted `#` + space anywhere after a
`#`-free prefix: the pass is not anchored at line starts. -/
theorem stripHeading_mid (a b : Str) (ha : '#' ∉ a) :
    stripHeading (a ++ '#' :: ' ' :: b) = a ++ stripHeading b := by
  unfold stripHeading
  have hlen : (a ++ '#' :: ' ' :: b).length = a.length + (b.length + 2) := by
    simp [List.length_append]
  rw [hlen, replGo_headF_prefix a ha ('#' :: ' ' :: b) (b.length + 2)]
  congr 1
  have hmatch : headF ('#' :: ' ' :: b) = some ([], b) := by
    unfold headF headMatchLen
    have hch : countHash ('#' :: ' ' :: b) = 1 := by
      simp [countHash]
    simp [hch, jsWhitespace]
  show replGo headF (b.length + 1 + 1) ('#' :: ' ' :: b) = replGo headF b.length b
  simp only [replGo, hmatch]
  simp only [List.nil_append]
  exact replGo_fuel headF headF_consumes (b.length + 1) b.length b (by omega) (by omega)

/- ─── Structure of the lazy closers ─── -/

/-- A successful bold-close search splits the input at the first
reachable `**`. -/
theorem findClose2_eq :
    ∀ (l inner rest : Str), findClose2 l = some (inner, rest) →
      l = inner ++ '*' :: '*' :: rest := by
  intro l
  induction l with
  | nil => intro inner rest h; simp [findClose2] at h
  | cons c r ih =>
    intro inner rest h
    cases r with
    | nil => simp [findClose2] at h
    | cons c2 r2 =>
      simp only [findClose2] at h
      by_cases hstar : c = '*' ∧ c2 = '*'
      · obtain ⟨hs1, hs2⟩ := hstar
        subst hs1
        subst hs2
        rw [if_pos ⟨rfl, rfl⟩] at h
        injection h with hpair
        rw [Prod.mk.injEq] at hpair
        obtain ⟨h1, h2⟩ := hpair
        subst h1
        subst h2
        simp
      · rw [if_neg hstar] at h
        by_cases hl : jsLineTerm c
        · simp [hl] at h
        · rw [if_neg (by simp [hl])] at h
          cases hx : findClose2 (c2 :: r2) with
          | none => rw [hx] at h; exact Option.noConfusion h
          | some q =>
            obtain ⟨qi, qr⟩ := q
            rw [hx] at h
            simp only [Option.map_some'] at h
            injection h with hpair
            rw [Prod.mk.injEq] at hpair
            obtain ⟨h1, h2⟩ := hpair
            subst h2
            rw [← h1]
            simp [ih qi qr hx]

/-- A successful single-character close search splits the input at the
first reachable `stop`. -/
theorem findClose1_eq (stop : Char) :
    ∀ (l inner rest : Str), findClose1 stop l = some (inner, rest) →
      l = inner ++ stop :: rest := by
  intro l
  induction l with
  | nil => intro inner rest h; simp [findClose1] at h
  | cons c r ih =>
    intro inner rest h
    simp only [findClose1] at h
    by_cases hc : c = stop
    · rw [if_pos hc] at h
      injection h with hpair
      rw [Prod.mk.injEq] at hpair
      obtain ⟨h1, h2⟩ := hpair
      subst hc
      subst h1
      subst h2
      simp
    · rw [if_neg hc] at h
      by_cases hl : jsLineTerm c
      · simp [hl] at h
      · rw [if_neg (by simp [hl])] at h
        cases hx : findClose1 stop r with
        | none => rw [hx] at h; exact Option.noConfusion h
        | some q =>
          obtain ⟨qi, qr⟩ := q
          rw [hx] at h
          simp only [Option.map_some'] at h
          injection h with hpair
          rw [Prod.mk.injEq] at hpair
          obtain ⟨h1, h2⟩ := hpair
          subst h2
          rw [← h1]
          simp [ih qi qr hx]

/-- One global single-character replacement distributes over
concatenation. -/
theorem replChar_append (c : Char) (rep : Str) (a b : Str) :
    replChar c rep (a ++ b) = replChar c rep a ++ replChar c rep b := by
  simp [replChar]

/-- `escapeHtml` acts character by character. -/
theorem escapeHtml_cons (c : Char) (r : Str) :
    escapeHtml (c :: r) = escChar c ++ escapeHtml r := by
  show escapeHtml ([c] ++ r) = _
  unfold escapeHtml
  simp only [replChar_append]
  congr 1
  by_cases h1 : c = '&'
  · subst h1; decide
  · by_cases h2 : c = '<'
    · subst h2; decide
    · by_cases h3 : c = '>'
      · subst h3; decide
      · by_cases h4 : c = '"'
        · subst h4; decide
        · simp [escChar, replChar, h1, h2, h3, h4]

/-- No raw `<`, `>` or `"` survives escaping. -/
theorem escapeHtml_no_specials :
    ∀ s : Str, '<' ∉ escapeHtml s ∧ '>' ∉ escapeHtml s ∧ '"' ∉ escapeHtml s := by
  intro s
  induction s with
  | nil => simp [escapeHtml, replChar]
  | cons c r ih =>
    rw [escapeHtml_cons]
    have hch : '<' ∉ escChar c ∧ '>' ∉ escChar c ∧ '"' ∉ escChar c := by
      unfold escChar
      by_cases h1 : c = '&'
      · simp [h1]
      · by_cases h2 : c = '<'
        · simp [h1, h2]
        · by_cases h3 : c = '>'
          · simp [h1, h2, h3]
          · by_cases h4 : c = '"'
            · simp [h1, h2, h3, h4]
            · simp [h1, h2, h3, h4]
              exact ⟨fun hx => h2 hx.symm, fun hx => h3 hx.symm, fun hx => h4 hx.symm⟩
    refine ⟨?_, ?_, ?_⟩ <;> intro hx <;> rcases List.mem_append.mp hx with hx | hx
    · exact hch.1 hx
    · exact ih.1 hx
    · exact hch.2.1 hx
    · exact ih.2.1 hx
    · exact hch.2.2 hx
    · exact ih.2.2 hx

/-- Consing a non-`&` character preserves the entity discipline. -/
theorem ampOk_cons (c : Char) (t : Str) (hc : c ≠ '&') (ht : ampOk t = true) :
    ampOk (c :: t) = true := by
  simp [ampOk, hc, ht]

/-- Every string produced by `escapeHtml` obeys the entity
discipline. -/
theorem escapeHtml_ampOk : ∀ s : Str, ampOk (escapeHtml s) = true := by
  intro s
  induction s with
  | nil => rfl
  | cons c r ih =>
    rw [escapeHtml_cons]
    unfold escChar
    by_cases h1 : c = '&'
    · simp only [h1, if_true]
      show ampOk ('&' :: 'a' :: 'm' :: 'p' :: ';' :: escapeHtml r) = true
      simp only [ampOk]
      rw [ih]
      simp [List.isPrefixOf]
    · by_cases h2 : c = '<'
      · simp only [h1, h2, if_true, if_false]
        show ampOk ('&' :: 'l' :: 't' :: ';' :: escapeHtml r) = true
        simp only [ampOk]
        rw [ih]
        simp [List.isPrefixOf]
      · by_cases h3 : c = '>'
        · simp only [h1, h2, h3, if_true, if_false]
          show ampOk ('&' :: 'g' :: 't' :: ';' :: escapeHtml r) = true
          simp only [ampOk]
          rw [ih]
          simp [List.isPrefixOf]
        · by_cases h4 : c = '"'
          · simp only [h1, h2, h3, h4, if_true, if_false]
            show ampOk ('&' :: 'q' :: 'u' :: 'o' :: 't' :: ';' :: escapeHtml r) = true
            simp only [ampOk]
            rw [ih]
            simp [List.isPrefixOf]
          · simp only [h1, h2, h3, h4, if_false, List.singleton_append]
            exact ampOk_cons c (escapeHtml r) h1 ih

/-- The opening `<strong>` tag's characters are tag characters. -/
theorem mem_tag_strongOpen : ∀ x ∈ ("<strong>".data : Str), x ∈ tagChars := by decide

/-- The closing `</strong>` tag's characters are tag characters. -/
theorem mem_tag_strongClose : ∀ x ∈ ("</strong>".data : Str), x ∈ tagChars := by decide

/-- The opening `<em>` tag's characters are tag characters. -/
theorem mem_tag_emOpen : ∀ x ∈ ("<em>".data : Str), x ∈ tagChars := by decide

/-- The closing `</em>` tag's characters are tag characters. -/
theorem mem_tag_emClose : ∀ x ∈ ("</em>".data : Str), x ∈ tagChars := by decide

/-- The bold-to-`<strong>` matcher only adds tag characters and moves
input characters. -/
theorem boldHtmlF_mem :
    ∀ l rep rest, boldHtmlF l = some (rep, rest) →
      (∀ ch ∈ rep, ch ∈ tagChars ∨ ch ∈ l) ∧ (∀ ch ∈ rest, ch ∈ l) := by
  intro l rep rest h
  match l with
  | [] => exact absurd h (by simp [boldHtmlF])
  | [c] => exact absurd h (by simp [boldHtmlF])
  | c :: c2 :: r =>
    simp only [boldHtmlF] at h
    by_cases hstar : c = '*' ∧ c2 = '*'
    · rw [if_pos hstar] at h
      cases hx : findClose2 r with
      | none => rw [hx] at h; exact Option.noConfusion h
      | some q =>
        obtain ⟨qi, qr⟩ := q
        rw [hx] at h
        simp only [Option.map_some'] at h
        injection h with hpair
        rw [Prod.mk.injEq] at hpair
        obtain ⟨h1, h2⟩ := hpair
        subst h2
        have hr := findClose2_eq r qi qr hx
        constructor
        · intro ch hch
          rw [← h1] at hch
          rcases List.mem_append.mp hch with hch | hch
          · rcases List.mem_append.mp hch with hch | hch
            · exact Or.inl (mem_tag_strongOpen ch hch)
            · rw [hr]
              right
              simp [hch]
          · exact Or.inl (mem_tag_strongClose ch hch)
        · intro ch hch
          rw [hr]
          simp [hch]
    · rw [if_neg hstar] at h
      exact Option.noConfusion h

/-- The italic-to-`<em>` matcher only adds tag characters and moves
input characters. -/
theorem italicHtmlF_mem :
    ∀ l rep rest, italicHtmlF l = some (rep, rest) →
      (∀ ch ∈ rep, ch ∈ tagChars ∨ ch ∈ l) ∧ (∀ ch ∈ rest, ch ∈ l) := by
  intro l rep rest h
  match l with
  | [] => exact absurd h (by simp [italicHtmlF])
  | c :: r =>
    simp only [italicHtmlF] at h
    by_cases hc : c = '*'
    · rw [if_pos hc] at h
      cases hx : findClose1 '*' r with
      | none => rw [hx] at h; exact Option.noConfusion h
      | some q =>
        obtain ⟨qi, qr⟩ := q
        rw [hx] at h
        simp only [Option.map_some'] at h
        injection h with hpair
        rw [Prod.mk.injEq] at hpair
        obtain ⟨h1, h2⟩ := hpair
        subst h2
        have hr := findClose1_eq '*' r qi qr hx
        constructor
        · intro ch hch
          rw [← h1] at hch
          rcases List.mem_append.mp hch with hch | hch
          · rcases List.mem_append.mp hch with hch | hch
            · exact Or.inl (mem_tag_emOpen ch hch)
            · rw [hr]
              right
              simp [hch]
          · exact Or.inl (mem_tag_emClose ch hch)
        · intro ch hch
          rw [hr]
          simp [hch]
    · rw [if_neg hc] at h
      exact Option.noConfusion h

/-- Every character of the converted paragraph is an inserted tag
character or a character of the escaped text. -/
theorem subInline_mem (t : Str) (ch : Char)
    (h : ch ∈ subItalicHtml (subBoldHtml (escapeHtml t))) :
    ch ∈ tagChars ∨ ch ∈ escapeHtml t := by
  unfold subItalicHtml at h
  rcases replGo_mem italicHtmlF tagChars italicHtmlF_mem _ _ ch h with h' | h'
  · exact Or.inl h'
  · unfold subBoldHtml at h'
    exact replGo_mem boldHtmlF tagChars boldHtmlF_mem _ _ ch h'

/-- The converted paragraph contains no double quote. -/
theorem subInline_no_quote (t : Str) : '"' ∉ subItalicHtml (subBoldHtml (escapeHtml t)) := by
  intro h
  rcases subInline_mem t '"' h with h' | h'
  · revert h'
    decide
  · exact (escapeHtml_no_specials t).2.2 h'

/-- Characters of an intercalation come from the separator or from one
of the pieces. -/
theorem intercalate_mem (sep : Str) :
    ∀ (ls : List Str) (c : Char), c ∈ List.intercalate sep ls → c ∈ sep ∨ ∃ l ∈ ls, c ∈ l := by
  intro ls
  induction ls with
  | nil => intro c hc; simp [List.intercalate] at hc
  | cons x xs ih =>
    intro c hc
    cases xs with
    | nil =>
      simp only [List.intercalate, List.intersperse_singleton, List.flatten, List.append_nil] at hc
      exact Or.inr ⟨x, by simp, hc⟩
    | cons y t =>
      simp only [List.intercalate, List.intersperse_cons_cons, List.flatten] at hc
      rcases List.mem_append.mp hc with hc | hc
      · exact Or.inr ⟨x, by simp, hc⟩
      · rcases List.mem_append.mp hc with hc | hc
        · exact Or.inl hc
        · rcases ih c (by simpa [List.intercalate] using hc) with hc' | ⟨l, hl, hcl⟩
          · exact Or.inl hc'
          · exact Or.inr ⟨l, by simp [hl], hcl⟩

/-- A sandwich of quote-free pieces is quote-free. -/
theorem no_quote3 (a x b : Str) (ha : '"' ∉ a) (hx : '"' ∉ x) (hb : '"' ∉ b) :
    '"' ∉ a ++ x ++ b := by
  intro h
  rcases List.mem_append.mp h with h | h
  · rcases List.mem_append.mp h with h | h
    · exact ha h
    · exact hx h
  · exact hb h

/-- No block of `markdownToBasicHtml` contains a double quote. -/
theorem mdBlockHtml_no_quote (block : Str) : '"' ∉ mdBlockHtml block := by
  unfold mdBlockHtml
  simp only []
  repeat' split
  · simp
  · exact no_quote3 _ _ _ (by decide) ((escapeHtml_no_specials _).2.2) (by decide)
  · exact no_quote3 _ _ _ (by decide) ((escapeHtml_no_specials _).2.2) (by decide)
  · exact no_quote3 _ _ _ (by decide) ((escapeHtml_no_specials _).2.2) (by decide)
  · exact no_quote3 _ _ _ (by decide) ((escapeHtml_no_specials _).2.2) (by decide)
  · decide
  · exact no_quote3 _ _ _ (by decide) (subInline_no_quote _) (by decide)

/-- `markdownToBasicHtml` never emits a double quote. -/
theorem markdownToBasicHtml_no_quote (md : Str) : '"' ∉ markdownToBasicHtml md := by
  unfold markdownToBasicHtml
  intro h
  rcases intercalate_mem "
".data _ '"' h with h | ⟨l, hl, hcl⟩
  · revert h; decide
  · obtain ⟨block, _, rfl⟩ := List.mem_map.mp hl
    exact mdBlockHtml_no_quote block hcl

/-- No chapter body of the EPUB packager contains a raw double quote,
whatever the model's titles and contents hold. -/
theorem epubChapterBody_no_quote (c : Chapter) : '"' ∉ epubChapterBody c := by
  rw [epubChapterBody_canon]
  intro h
  rcases List.mem_append.mp h with h | h
  · exact no_quote3 _ _ _ (by decide) ((escapeHtml_no_specials _).2.2) (by decide) h
  · obtain ⟨piece, hp, hcp⟩ := List.mem_flatten.mp h
    obtain ⟨sec, _, rfl⟩ := List.mem_map.mp hp
    unfold epubSectionHtml at hcp
    rcases List.mem_append.mp hcp with h' | h'
    · exact no_quote3 _ _ _ (by decide) ((escapeHtml_no_specials _).2.2) (by decide) h'
    · exact markdownToBasicHtml_no_quote _ h'

/- ─── Remaining observation lemmas ─── -/

/-- Mapping a function of the index only over `enum` is mapping it over
`range`. -/
theorem enum_map_fst_apply {α β : Type} (l : List α) (h : Nat → β) :
    l.enum.map (fun ic => h ic.1) = (List.range l.length).map h := by
  rw [show (fun (ic : Nat × α) => h ic.1) = h ∘ Prod.fst from rfl]
  rw [← List.map_map, List.enum_map_fst]

/-- The spine of `content.opf`: the title `itemref` first, then one
`itemref` per chapter, in order, referencing `chapter_1 … chapter_n`. -/
theorem spineItems_chapters (p : BookProject) :
    spineItems (chapterFiles p) =
      "<itemref idref=\"title\"/>".data ::
        (List.range p.structure'.chapters.length).map
          (fun i => "<itemref idref=\"".data ++ chapterId i ++ "\"/>".data) := by
  rw [chapterFiles_canon]
  unfold spineItems
  simp only [List.map_map]
  congr 1
  exact enum_map_fst_apply p.structure'.chapters
    (fun i => "<itemref idref=\"".data ++ chapterId i ++ "\"/>".data)

/-- A line yields no DOCX paragraph exactly when it is blank. -/
theorem docxLine_none_iff (line : Str) : docxLine line = none ↔ jsTrim line = [] := by
  by_cases ht : jsTrim line = []
  · simp [docxLine, ht]
  · have hsome : (docxLine line).isSome := by
      unfold docxLine
      simp only [ht, if_false]
      repeat' split
      all_goals rfl
    constructor
    · intro h
      rw [h] at hsome
      simp at hsome
    · intro h
      exact absurd h ht

/-- The Strategy-B chapter loop, page numbers forgotten, is the
concatenation of the per-chapter canonical blocks in enumeration
order. -/
theorem bChapters_shape (measureH : Nat → Nat) (lang : Str) :
    ∀ (chapters : List Chapter) (ci run : Nat),
      (bChapters measureH lang ci run chapters).map bPageShape =
        ((chapters.enumFrom ci).map (bChapterShape measureH lang)).flatten := by
  intro chapters
  induction chapters with
  | nil => intro ci run; rfl
  | cons c rest ih =>
    intro ci run
    by_cases hc : bContentHtml c = []
    · simp [bChapters, List.enumFrom_cons, bChapterShape, bPageShape, hc, ih]
    · simp [bChapters, List.enumFrom_cons, bChapterShape, bPageShape, hc, ih,
        List.map_append, List.map_map]

/-- Strategy B's full page sequence, page numbers forgotten: optional
cover, title page, table of contents, the chapters' canonical blocks in
order, back page. -/
theorem exportPDF_B_shape (measureH : Nat → Nat) (p : BookProject) :
    (exportPDF_B measureH p).map bPageShape =
      (match p.coverImage with
       | some cover => if cover ≠ [] then [BPage.page (bCoverHtml cover)] else []
       | none => []) ++
      [BPage.page (bTitleHtml p.settings.title p.settings.authorName)] ++
      [BPage.page (bTocHtml (jsToLower p.settings.language) p.structure'.chapters)] ++
      ((p.structure'.chapters.enumFrom 0).map
        (bChapterShape measureH (jsToLower p.settings.language))).flatten ++
      [BPage.page (bBackHtml p.settings.topic p.settings.authorName)] := by
  unfold exportPDF_B
  simp only [List.map_append, bChapters_shape]
  cases hcov : p.coverImage with
  | none => simp [bPageShape]
  | some cover =>
    by_cases hc : cover ≠ [] <;> simp [hc, bPageShape]

/-- The sanitized filename never exceeds 80 characters. -/
theorem sanitizeFilename_length (s : Str) : (sanitizeFilename s).length ≤ 80 := by
  unfold sanitizeFilename
  simp [List.length_take]

/-- Every character of the sanitized filename is a word character, a
hyphen, or a permitted CJK character. -/
theorem sanitizeFilename_chars (s : Str) :
    ∀ ch ∈ sanitizeFilename s, jsWordChar ch ∨ ch = '-' ∨ cjkChar ch := by
  intro ch hch
  unfold sanitizeFilename at hch
  have hmem := List.take_subset 80 _ hch
  obtain ⟨x, _, hx⟩ := List.mem_map.mp hmem
  by_cases hk : sanitizeKeep x
  · rw [if_pos hk] at hx
    subst hx
    unfold sanitizeKeep at hk
    simp only [Bool.or_eq_true, decide_eq_true_eq] at hk
    rcases hk with (h | h) | h
    · exact Or.inl h
    · exact Or.inr (Or.inr h)
    · exact Or.inr (Or.inl h)
  · rw [if_neg hk] at hx
    subst hx
    exact Or.inl (by decide)

/-- CJK characters inside the 80-character window pass through
unescaped, at their position. -/
theorem sanitizeFilename_cjk (s : Str) (i : Nat) (c : Char)
    (hg : s.get? i = some c) (hc : cjkChar c = true) (hi : i < 80) :
    (sanitizeFilename s).get? i = some c := by
  unfold sanitizeFilename
  rw [List.get?_eq_getElem?, List.getElem?_take_of_lt hi, List.getElem?_map, ← List.get?_eq_getElem?, hg]
  simp [sanitizeKeep, hc]

/- ─── The claims ─── -/

/-- C1: in every exporter (Markdown, plain text, EPUB, DOCX, PDF
Strategy A and Strategy B) a section whose `content` is the empty
string or absent contributes nothing to the output — removing all such
sections leaves each exporter's complete output unchanged, so no title
of an empty section and no empty heading ever appears, and inclusion is
gated only by content non-emptiness. -/
theorem claim_C1 (now : Nat) (nowIso : Str) (wrap : Str → List Str) (measureH : Nat → Nat)
    (p : BookProject) :
    buildMarkdown (dropEmpty p) = buildMarkdown p ∧
    buildPlainText (dropEmpty p) = buildPlainText p ∧
    exportEPUB now nowIso (dropEmpty p) = exportEPUB now nowIso p ∧
    exportDOCX (dropEmpty p) = exportDOCX p ∧
    exportPDF_A wrap (dropEmpty p) = exportPDF_A wrap p ∧
    exportPDF_B measureH (dropEmpty p) = exportPDF_B measureH p :=
  ⟨buildMarkdown_dropEmpty p, buildPlainText_dropEmpty p,
   exportEPUB_dropEmpty now nowIso p, exportDOCX_dropEmpty p,
   exportPDF_A_dropEmpty wrap p, exportPDF_B_dropEmpty measureH p⟩

/-- C2: for every book model and every output format, reassigning the
sections' `status` fields arbitrarily never changes any output, and
every output is equal to its canonical form — header, then the chapters
in `structure.chapters` order, each chapter rendering exactly its
sections with non-empty content, in order (`filter hasContent`, no
re-sorting). -/
theorem claim_C2 (now : Nat) (nowIso : Str) (wrap : Str → List Str) (measureH : Nat → Nat)
    (f : SecStatus → SecStatus) (p : BookProject) (c : Chapter) :
    (buildMarkdown (mapStatus f p) = buildMarkdown p ∧
     buildPlainText (mapStatus f p) = buildPlainText p ∧
     exportEPUB now nowIso (mapStatus f p) = exportEPUB now nowIso p ∧
     exportDOCX (mapStatus f p) = exportDOCX p ∧
     exportPDF_A wrap (mapStatus f p) = exportPDF_A wrap p ∧
     exportPDF_B measureH (mapStatus f p) = exportPDF_B measureH p) ∧
    buildMarkdown p = mdHeader p ++ (p.structure'.chapters.map mdChapterBlock).flatten ∧
    buildPlainText p = txtHeader p ++ (p.structure'.chapters.map txtChapterBlock).flatten ∧
    chapterFiles p =
      p.structure'.chapters.enum.map
        (fun ic => ⟨chapterId ic.1, chapterFilename ic.1, ic.2.title⟩) ∧
    epubChapterBody c =
      "<h1>".data ++ escapeHtml c.title ++ "</h1>\n".data ++
        ((c.sections.filter hasContent).map epubSectionHtml).flatten ∧
    exportDOCX p = docxTitleBlock p ++ (p.structure'.chapters.map docxChapter).flatten ∧
    (exportPDF_A wrap p).texts = pdfATexts wrap p ∧
    bContentHtml c = ((c.sections.filter hasContent).map bSecHtml).flatten ∧
    (exportPDF_B measureH p).map bPageShape =
      (match p.coverImage with
       | some cover => if cover ≠ [] then [BPage.page (bCoverHtml cover)] else []
       | none => []) ++
      [BPage.page (bTitleHtml p.settings.title p.settings.authorName)] ++
      [BPage.page (bTocHtml (jsToLower p.settings.language) p.structure'.chapters)] ++
      ((p.structure'.chapters.enumFrom 0).map
        (bChapterShape measureH (jsToLower p.settings.language))).flatten ++
      [BPage.page (bBackHtml p.settings.topic p.settings.authorName)] :=
  ⟨⟨buildMarkdown_mapStatus f p, buildPlainText_mapStatus f p,
    exportEPUB_mapStatus now nowIso f p, exportDOCX_mapStatus f p,
    exportPDF_A_mapStatus wrap f p, exportPDF_B_mapStatus measureH f p⟩,
   buildMarkdown_canon p, buildPlainText_canon p, chapterFiles_canon p,
   epubChapterBody_canon c, exportDOCX_canon p, exportPDF_A_texts wrap p,
   bContentHtml_canon c, exportPDF_B_shape measureH p⟩

/-- C3 (as amended): the strip pipeline (heading markers → bold →
italic → inline code → links, sequential global passes) leaves every
string without markup-subset constructs unchanged, and is therefore
idempotent on such strings; idempotence does not hold for arbitrary
strings (see the counterexample). -/
theorem claim_C3 (x : Str) (h : noMarkup x = true) :
    stripMarkup x = x ∧ stripMarkup (stripMarkup x) = stripMarkup x := by
  have h1 := stripMarkup_fixed x h
  exact ⟨h1, by rw [h1, h1]⟩

/-- Witness for C3: a concrete markup-free string is a fixed point. -/
theorem claim_C3_witness :
    noMarkup "hello, world. 2+2=4".data = true ∧
      (stripMarkup "hello, world. 2+2=4".data = "hello, world. 2+2=4".data ∧
        stripMarkup (stripMarkup "hello, world. 2+2=4".data) =
          stripMarkup "hello, world. 2+2=4".data) :=
  ⟨by decide, claim_C3 "hello, world. 2+2=4".data (by decide)⟩

/-- Counterexample to C3 as stated: the pipeline is not idempotent on
every string — on `#**** x` the bold pass creates a fresh heading
marker (`# x`) that only a second run deletes. -/
theorem claim_C3_cex :
    stripMarkup (stripMarkup "#**** x".data) ≠ stripMarkup "#**** x".data := by
  decide

/-- C4: `sanitizeFilename` is a total function whose result has length
at most 80, contains only word characters (`[A-Za-z0-9_]`), hyphens and
the permitted CJK ranges (Han U+4E00–U+9FFF, Hiragana U+3040–U+309F,
Katakana U+30A0–U+30FF), and lets CJK characters within the
80-character window pass through unescaped at their position. -/
theorem claim_C4 (s : Str) :
    ((sanitizeFilename s).length ≤ 80 ∧
      ∀ ch ∈ sanitizeFilename s, jsWordChar ch ∨ ch = '-' ∨ cjkChar ch) ∧
    (∀ (i : Nat) (c : Char), s.get? i = some c → cjkChar c = true → i < 80 →
      (sanitizeFilename s).get? i = some c) :=
  ⟨⟨sanitizeFilename_length s, sanitizeFilename_chars s⟩,
   fun i c hg hc hi => sanitizeFilename_cjk s i c hg hc hi⟩

/-- Witness for C4: the Han character of a concrete title passes
through at position 0. -/
theorem claim_C4_witness :
    ("日本語 Book?!".data : Str).get? 0 = some '日' ∧ cjkChar '日' = true ∧ (0 : Nat) < 80 ∧
      (sanitizeFilename "日本語 Book?!".data).get? 0 = some '日' :=
  ⟨by decide, by decide, by decide,
   (claim_C4 "日本語 Book?!".data).2 0 '日' (by decide) (by decide) (by decide)⟩

/-- C5: `exportEPUB` files the `mimetype` entry first, with the literal
content `application/epub+zip` and the explicit `STORE` (uncompressed)
option, and the `content.opf` spine holds exactly chapter-count + 1
`itemref`s: the title page first, then `chapter_1 … chapter_n` in
document order. -/
theorem claim_C5 (now : Nat) (nowIso : Str) (p : BookProject) :
    (exportEPUB now nowIso p).head? =
      some ⟨"mimetype".data, "application/epub+zip".data, some ZipCompression.STORE⟩ ∧
    spineItems (chapterFiles p) =
      "<itemref idref=\"title\"/>".data ::
        (List.range p.structure'.chapters.length).map
          (fun i => "<itemref idref=\"".data ++ chapterId i ++ "\"/>".data) ∧
    (spineItems (chapterFiles p)).length = p.structure'.chapters.length + 1 := by
  refine ⟨rfl, spineItems_chapters p, ?_⟩
  rw [spineItems_chapters p]
  simp

/-- C6: in `exportEPUB` every model-derived string is interpolated
through `escapeHtml`, whose output contains no raw `<`, `>` or `"` and
whose every `&` begins one of the four entities; the paragraph
conversion escapes first and only then inserts `<strong>`/`<em>` (every
character of the converted paragraph is an inserted tag character or a
character of the escaped text, and the concrete evaluation shows the
model's `<` rendered as `&lt;` inside the inserted tags); consequently
no raw double quote from any title or content ever reaches a chapter
document's body. -/
theorem claim_C6 (s t : Str) (c : Chapter) :
    ('<' ∉ escapeHtml s ∧ '>' ∉ escapeHtml s ∧ '"' ∉ escapeHtml s ∧
      ampOk (escapeHtml s) = true) ∧
    (∀ ch ∈ subItalicHtml (subBoldHtml (escapeHtml t)), ch ∈ tagChars ∨ ch ∈ escapeHtml t) ∧
    markdownToBasicHtml "**<b>**".data = "<p><strong>&lt;b&gt;</strong></p>".data ∧
    '"' ∉ epubChapterBody c :=
  ⟨⟨(escapeHtml_no_specials s).1, (escapeHtml_no_specials s).2.1,
    (escapeHtml_no_specials s).2.2, escapeHtml_ampOk s⟩,
   fun ch hch => subInline_mem t ch hch,
   by decide,
   epubChapterBody_no_quote c⟩

/-- Witness for C6: the inline conversion applied to `**a**` produces
`<strong>a</strong>`, and its `<` is an inserted tag character. -/
theorem claim_C6_witness :
    ('<' ∈ subItalicHtml (subBoldHtml (escapeHtml "**a**".data))) ∧
      ('<' ∈ tagChars ∨ '<' ∈ escapeHtml "**a**".data) :=
  ⟨by decide,
   (claim_C6 [] "**a**".data ⟨[], [], []⟩).2.1 '<' (by decide)⟩

/-- C7: when every chapter contains at least one section with
non-empty content, both PDF exporters produce at least
`2 × chapters + 1` pages — Strategy A adds two unconditional fresh
pages per chapter on top of the title page, Strategy B renders a title
page and at least one clipped content page per chapter besides its
title and table-of-contents pages. -/
theorem claim_C7 (wrap : Str → List Str) (measureH : Nat → Nat) (p : BookProject)
    (h : ∀ c ∈ p.structure'.chapters, ∃ s ∈ c.sections, hasContent s) :
    2 * p.structure'.chapters.length + 1 ≤ (exportPDF_A wrap p).pages ∧
    2 * p.structure'.chapters.length + 1 ≤ (exportPDF_B measureH p).length :=
  ⟨exportPDF_A_pages wrap p, exportPDF_B_pages measureH p h⟩

/-- Witness for C7: the scenario model with a single written chapter
reaches the page floor under both strategies. -/
theorem claim_C7_witness :
    (∀ c ∈ testProject.structure'.chapters, ∃ s ∈ c.sections, hasContent s) ∧
      (2 * testProject.structure'.chapters.length + 1 ≤
        (exportPDF_A (fun s => [s]) testProject).pages ∧
      2 * testProject.structure'.chapters.length + 1 ≤
        (exportPDF_B (fun _ => 1000) testProject).length) :=
  ⟨by decide, claim_C7 (fun s => [s]) (fun _ => 1000) testProject (by decide)⟩

/-- C8: `exportDOCX` renders each non-empty section at line
granularity — its canonical form maps `docxLine` over the `\n`-split of
the content, one paragraph per non-blank line (blank lines yield none,
and consecutive lines are never grouped into blank-line-delimited
blocks), classified by the trimmed prefix into heading 3/2/1, block
quote, horizontal rule, or a body run with bold/italic/code/link
reduced to the inner text. -/
theorem claim_C8 (p : BookProject) :
    exportDOCX p = docxTitleBlock p ++ (p.structure'.chapters.map docxChapter).flatten ∧
    (∀ line : Str, docxLine line = none ↔ jsTrim line = []) ∧
    docxLine "### T".data = some (DocxChild.heading 3 "T".data) ∧
    docxLine "## T".data = some (DocxChild.heading 2 "T".data) ∧
    docxLine "# T".data = some (DocxChild.heading 1 "T".data) ∧
    docxLine "> q".data = some (DocxChild.quote "q".data) ∧
    docxLine "---".data = some DocxChild.rule ∧
    docxLine "***".data = some DocxChild.rule ∧
    docxLine "**b** *i* `c` [t](u)".data = some (DocxChild.body "b i c t".data) ∧
    (jsSplitNL "a\nb".data).filterMap docxLine =
      [DocxChild.body "a".data, DocxChild.body "b".data] ∧
    (jsSplitNL "a\n\n\nb".data).filterMap docxLine =
      [DocxChild.body "a".data, DocxChild.body "b".data] :=
  ⟨exportDOCX_canon p, docxLine_none_iff,
   by decide, by decide, by decide, by decide, by decide, by decide, by decide,
   by decide, by decide⟩

/-- C9: on the scenario model (title `Test Book`, no author, one
chapter `Intro` with the single section `Hello` / `World`),
`buildMarkdown` returns exactly the specified string, the author line
and rule omitted. -/
theorem claim_C9 :
    buildMarkdown testProject = "# Test Book\n\n## Intro\n\n### Hello\n\nWorld\n\n".data := by
  decide

/-- C10: the heading-marker pass deletes every occurrence of one to six
`#` followed by a whitespace character anywhere in the text, not only
at line starts — after any `#`-free prefix an inserted `# ` is removed
— so both the plain-text pipeline and the Strategy-A per-line pipeline
turn the body text `C# 7` into `C7`. -/
theorem claim_C10 :
    (∀ a b : Str, '#' ∉ a → stripHeading (a ++ '#' :: ' ' :: b) = a ++ stripHeading b) ∧
    stripMarkup "C# 7".data = "C7".data ∧
    stripLeadQuoteDash (stripMarkup (jsTrim "C# 7".data)) = "C7".data :=
  ⟨fun a b ha => stripHeading_mid a b ha, by decide, by decide⟩

/-- Witness for C10: the mid-line deletion at the concrete prefix
`C`. -/
theorem claim_C10_witness :
    ('#' ∉ ("C".data : Str)) ∧
      stripHeading ("C".data ++ '#' :: ' ' :: "7".data) = "C".data ++ stripHeading "7".data :=
  ⟨by decide, claim_C10.1 "C".data "7".data (by decide)⟩
